import Mathlib

/-!
Interstitial-condensation analysis (`main.go`, `submitHandler`).

A shallow embedding of the calculation performed by `submitHandler`:
vapour-resistance chain and pressure profile (calcul a), thermal-resistance
chain and temperature profile (calcul b), saturation profile (calcul c),
condensation detection and the vapour-barrier recomputation.

Modelling conventions.

* `float64` is modelled by an arbitrary linearly ordered field `α` (exact
  arithmetic); `math.Pow(math.E, x)` is the parameter `ex : α → α`, which is
  `Real.exp` when `α = ℝ`.  Rounding, infinities and NaN are not modelled.
* A slice is a `List`; an index expression `a[i]` is `index a i`, which fails
  with `Err.indexOutOfRange` exactly when Go panics.
* A counting loop `for i := 0; i < n; i++ { body }` is `forLoop n init body`,
  threading the variables the body assigns.
* Form parsing, template rendering and chart generation are left out; the
  model starts from the parsed numeric fields.
-/

namespace ProiectFC

/-- Ways a run of the handler ends without a result. -/
inductive Err where
  /-- Reply `400 Invalid form data` (line 90). -/
  | badRequest
  /-- Go run-time panic: index or slice bound out of range. -/
  | indexOutOfRange
  deriving DecidableEq, Repr

/-- One layer of the assembly (struct `InputEntry`). -/
structure InputEntry (α : Type) where
  Nume : String
  D : α
  Miu : α
  Lambda : α

/-- Struct `Inputs`. -/
structure Inputs (α : Type) where
  Entries : List (InputEntry α)

/-- Struct `Results`, the data handed to the result template. -/
structure Results (α : Type) where
  P : List α
  Theta : List α
  Ps : List α
  Pb : List α
  Entries : Inputs α
  Extra_vals : List α

/-- Index expression `a[i]`. -/
def index {β : Type} (a : List β) (i : Nat) : Except Err β :=
  match a[i]? with
  | some x => .ok x
  | none => .error .indexOutOfRange

/-- Index expression `a[i]` for a signed index, as in `thetas[len(names)-1]`. -/
def indexInt {β : Type} (a : List β) (i : Int) : Except Err β :=
  if i < 0 then .error .indexOutOfRange else index a i.toNat

/-- Counting loop `for i := 0; i < n; i++ { s = body i s }`. -/
def forLoop {σ : Type} : Nat → σ → (Nat → σ → Except Err σ) → Except Err σ
  | 0, s, _ => .ok s
  | n + 1, s, body => do
    let s' ← forLoop n s body
    body n s'

/-- Inner accumulation loop `sum := init; for j := 0; j < n; j++ { sum += a[j] }`
(lines 126-128, 134-137, 160-164, 251-254). -/
def sumLoop {α : Type} [Add α] (a : List α) (n : Nat) (init : α) : Except Err α :=
  forLoop n init (fun j sum => do
    let x ← index a j
    pure (sum + x))

/-- Function `insert` (lines 338-345).  The slice expression `a[index:]` panics
when `index > len(a)`; otherwise the result is `a` with `value` placed at
position `index`. -/
def insert {α : Type} (a : List α) (index : Nat) (value : α) : Except Err (List α) :=
  if a.length = index then
    .ok (a ++ [value])
  else if a.length < index then
    .error .indexOutOfRange
  else
    .ok ((a.take (index + 1) ++ a.drop index).set index value)

section Engine

variable {α : Type} [LinearOrderedField α]

/-- Lines 89-107: the length check and the construction of `inputs.Entries`. -/
def buildEntries (names : List String) (ds mius lambdas : List α) : Except Err (Inputs α) :=
  if names.length ≠ ds.length ∨ ds.length ≠ mius.length ∨ mius.length ≠ lambdas.length then
    .error .badRequest
  else do
    let entries ← forLoop names.length ([] : List (InputEntry α)) (fun i entries => do
      let d ← index ds i
      let miu ← index mius i
      let lambda ← index lambdas i
      let nume ← index names i
      pure (entries ++ [⟨nume, d, miu, lambda⟩]))
    pure ⟨entries⟩

/-- Variables of "calcul a)" that are used later. -/
structure Vapor (α : Type) where
  rvs : List α
  Rv : α
  P : List α

/-- Lines 118-140: per-layer vapour resistances, their total and the profile `P`.
`n` is `len(names)`. -/
def vaporProfile (vars : List (InputEntry α)) (n : Nat) (Pi Pe : α) : Except Err (Vapor α) := do
  let rvs ← forLoop n ([] : List α) (fun i rvs => do
    let v ← index vars i
    pure (rvs ++ [50 * 10 ^ 8 * v.D * v.Miu]))
  let Rv ← sumLoop rvs rvs.length 0
  let P ← forLoop (rvs.length - 1) [Pi] (fun i P => do
    let sum_Rv ← sumLoop rvs (i + 1) 0
    pure (P ++ [Pi - (sum_Rv / Rv) * (Pi - Pe)]))
  pure ⟨rvs, Rv, P ++ [Pe]⟩

/-- Variables of "calcul b)" that are used later. -/
structure Thermal (α : Type) where
  R : List α
  RT : α
  theta_si : α
  thetas : List α
  theta_se : α

/-- Lines 143-169: thermal resistances, `RT`, `theta_si`, `thetas`, `theta_se`.
`n` is `len(names)`. -/
def thermalProfile (vars : List (InputEntry α)) (n : Nat) (theta_i theta_e : α) :
    Except Err (Thermal α) := do
  let Rsi : α := 0.125
  let Rse : α := 0.042
  let (R, RT) ← forLoop n (([] : List α), (0 : α)) (fun i st => do
    let v ← index vars i
    let R := st.1 ++ [(v.D / 100) / v.Lambda]
    let r ← index R i
    pure (R, st.2 + r))
  let RT := RT + Rsi + Rse
  let theta_si := theta_i - (Rsi / RT) * (theta_i - theta_e)
  let thetas ← forLoop n ([] : List α) (fun i thetas => do
    let sum_R ← sumLoop R (i + 1) Rsi
    pure (thetas ++ [theta_i - sum_R / RT * (theta_i - theta_e)]))
  let theta_se ← indexInt thetas ((n : Int) - 1)
  pure ⟨R, RT, theta_si, thetas, theta_se⟩

/-- Lines 172-182: the saturation profile `Ps`.  `n` is `len(names)`. -/
def saturationProfile (ex : α → α) (n : Nat) (theta_si : α) (thetas : List α) (theta_se : α) :
    Except Err (List α) := do
  let Ps_thetaSi := 610.5 * ex ((17.269 * theta_si) / (237.3 + theta_si))
  let Ps ← forLoop (n - 1) [Ps_thetaSi] (fun i Ps => do
    let t ← index thetas i
    pure (Ps ++ [610.5 * ex ((17.269 * t) / (237.3 + t))]))
  let Ps_thetaSe := 610.5 * ex ((17.269 * theta_se) / (237.3 + theta_se))
  pure (Ps ++ [Ps_thetaSe])

/-- Lines 233-238: the detection loop; the result is `isIntersected` after it. -/
def detect (P Ps : List α) : Except Err Bool :=
  forLoop Ps.length false (fun i isIntersected => do
    let ps ← index Ps i
    let p ← index P i
    pure (if ps < p then true else isIntersected))

/-- Lines 230-231 and 242-258: the body of `if isIntersected`, giving `Pb`.
`Rv` is the total of line 128. -/
def barrierProfile (rvs : List α) (Rv Pi Pe : α) : Except Err (List α) := do
  let db : α := 0.2
  let miub : α := 0.1
  let Rvb := 50 * 10 ^ 8 * (db / 1000) * miub
  let rvsb ← insert rvs 1 Rvb
  let Rv := Rv + Rvb
  let Pb ← forLoop rvsb.length ([] : List α) (fun i Pb => do
    let sum_Rv ← sumLoop rvsb (i + 1) 0
    pure (Pb ++ [Pi - (sum_Rv / Rv) * (Pi - Pe)]))
  insert Pb 0 Pi

/-- Local variables of `submitHandler` at line 258. -/
structure Locals (α : Type) where
  inputs : Inputs α
  Pi : α
  Pe : α
  vapor : Vapor α
  thermal : Thermal α
  Ps : List α
  isIntersected : Bool
  Pb : List α

/-- Lines 89-258 of `submitHandler`.  Of the chart rendering (lines 187-227, 262-302) only
the index expressions `Ps[0]` are kept. -/
def analysis (ex : α → α) (names : List String) (ds mius lambdas : List α)
    (theta_i theta_e phi_i phi_e : α) : Except Err (Locals α) := do
  let inputs ← buildEntries names ds mius lambdas
  let vars := inputs.Entries
  let Ps_thetaI := 610.5 * ex ((17.269 * theta_i) / (237.3 + theta_i))
  let Ps_thetaE := 610.5 * ex ((21.875 * theta_e) / (265.5 + theta_e))
  let Pi := (phi_i * Ps_thetaI) / 100
  let Pe := (phi_e * Ps_thetaE) / 100
  let vapor ← vaporProfile vars names.length Pi Pe
  let thermal ← thermalProfile vars names.length theta_i theta_e
  let Ps ← saturationProfile ex names.length thermal.theta_si thermal.thetas thermal.theta_se
  -- line 187: `max_axis := math.Floor(Ps[0]) + 200`; only the index expression is kept
  let _ ← index Ps 0
  let isIntersected ← detect vapor.P Ps
  let Pb ← if isIntersected then do
      let Pb ← barrierProfile vapor.rvs vapor.Rv Pi Pe
      -- line 262: `max_axis := math.Floor(Ps[0]) + 200`
      let _ ← index Ps 0
      pure Pb
    else pure []
  pure ⟨inputs, Pi, Pe, vapor, thermal, Ps, isIntersected, Pb⟩

/-- The handler `submitHandler`: the analysis followed by lines 312-325. -/
def submitHandler (ex : α → α) (names : List String) (ds mius lambdas : List α)
    (theta_i theta_e phi_i phi_e : α) : Except Err (Results α) := do
  let l ← analysis ex names ds mius lambdas theta_i theta_e phi_i phi_e
  let thetas_copy ← insert l.thermal.thetas 0 l.thermal.theta_si
  pure ⟨l.vapor.P, thetas_copy, l.Ps, l.Pb, l.inputs, [0.2, 0.1]⟩

end Engine

/-!
The blocks of the handler once more, with the division operator as a parameter `dv`: every
`/` of the source is `dv`, everything else is as above.  A division whose denominator is zero
is one whose value `dv` may choose freely.
-/

section DivisionParameter

variable {α : Type} [LinearOrderedField α]

/-- Lines 118-140 (`vaporProfile`) with `dv` for the division of line 138. -/
def vaporProfileWith (dv : α → α → α) (vars : List (InputEntry α)) (n : Nat) (Pi Pe : α) :
    Except Err (Vapor α) := do
  let rvs ← forLoop n ([] : List α) (fun i rvs => do
    let v ← index vars i
    pure (rvs ++ [50 * 10 ^ 8 * v.D * v.Miu]))
  let Rv ← sumLoop rvs rvs.length 0
  let P ← forLoop (rvs.length - 1) [Pi] (fun i P => do
    let sum_Rv ← sumLoop rvs (i + 1) 0
    pure (P ++ [Pi - (dv sum_Rv Rv) * (Pi - Pe)]))
  pure ⟨rvs, Rv, P ++ [Pe]⟩

/-- Lines 143-169 (`thermalProfile`) with `dv` for the divisions of lines 150, 155, 166. -/
def thermalProfileWith (dv : α → α → α) (vars : List (InputEntry α)) (n : Nat)
    (theta_i theta_e : α) : Except Err (Thermal α) := do
  let Rsi : α := 0.125
  let Rse : α := 0.042
  let (R, RT) ← forLoop n (([] : List α), (0 : α)) (fun i st => do
    let v ← index vars i
    let R := st.1 ++ [dv (dv v.D 100) v.Lambda]
    let r ← index R i
    pure (R, st.2 + r))
  let RT := RT + Rsi + Rse
  let theta_si := theta_i - (dv Rsi RT) * (theta_i - theta_e)
  let thetas ← forLoop n ([] : List α) (fun i thetas => do
    let sum_R ← sumLoop R (i + 1) Rsi
    pure (thetas ++ [theta_i - dv sum_R RT * (theta_i - theta_e)]))
  let theta_se ← indexInt thetas ((n : Int) - 1)
  pure ⟨R, RT, theta_si, thetas, theta_se⟩

/-- Lines 172-182 (`saturationProfile`) with `dv` for the divisions of lines 174, 178, 181. -/
def saturationProfileWith (dv : α → α → α) (ex : α → α) (n : Nat) (theta_si : α)
    (thetas : List α) (theta_se : α) : Except Err (List α) := do
  let Ps_thetaSi := 610.5 * ex (dv (17.269 * theta_si) (237.3 + theta_si))
  let Ps ← forLoop (n - 1) [Ps_thetaSi] (fun i Ps => do
    let t ← index thetas i
    pure (Ps ++ [610.5 * ex (dv (17.269 * t) (237.3 + t))]))
  let Ps_thetaSe := 610.5 * ex (dv (17.269 * theta_se) (237.3 + theta_se))
  pure (Ps ++ [Ps_thetaSe])

/-- Lines 230-231 and 242-258 (`barrierProfile`) with `dv` for the divisions of lines 242
and 255. -/
def barrierProfileWith (dv : α → α → α) (rvs : List α) (Rv Pi Pe : α) :
    Except Err (List α) := do
  let db : α := 0.2
  let miub : α := 0.1
  let Rvb := 50 * 10 ^ 8 * (dv db 1000) * miub
  let rvsb ← insert rvs 1 Rvb
  let Rv := Rv + Rvb
  let Pb ← forLoop rvsb.length ([] : List α) (fun i Pb => do
    let sum_Rv ← sumLoop rvsb (i + 1) 0
    pure (Pb ++ [Pi - (dv sum_Rv Rv) * (Pi - Pe)]))
  insert Pb 0 Pi

/-- Lines 89-258 (`analysis`) with `dv` for every division, those of lines 112-116 included. -/
def analysisWith (dv : α → α → α) (ex : α → α) (names : List String) (ds mius lambdas : List α)
    (theta_i theta_e phi_i phi_e : α) : Except Err (Locals α) := do
  let inputs ← buildEntries names ds mius lambdas
  let vars := inputs.Entries
  let Ps_thetaI := 610.5 * ex (dv (17.269 * theta_i) (237.3 + theta_i))
  let Ps_thetaE := 610.5 * ex (dv (21.875 * theta_e) (265.5 + theta_e))
  let Pi := dv (phi_i * Ps_thetaI) 100
  let Pe := dv (phi_e * Ps_thetaE) 100
  let vapor ← vaporProfileWith dv vars names.length Pi Pe
  let thermal ← thermalProfileWith dv vars names.length theta_i theta_e
  let Ps ← saturationProfileWith dv ex names.length thermal.theta_si thermal.thetas
    thermal.theta_se
  let _ ← index Ps 0
  let isIntersected ← detect vapor.P Ps
  let Pb ← if isIntersected then do
      let Pb ← barrierProfileWith dv vapor.rvs vapor.Rv Pi Pe
      let _ ← index Ps 0
      pure Pb
    else pure []
  pure ⟨inputs, Pi, Pe, vapor, thermal, Ps, isIntersected, Pb⟩

end DivisionParameter

/-!
Specification-side definitions.  The `spec...` functions are the formulas of the
specification, indexed by layer number (`getD` reads a field list, the default `0` is never
used below the list length).  The `closed...` functions are the values the loops of the
handler are proved to compute.
-/

section SpecDefs

variable {α : Type} [LinearOrderedField α]

/-- The layer read at index `i` of the four form lists. -/
def entryAt (names : List String) (ds mius lambdas : List α) (i : Nat) : InputEntry α :=
  ⟨names.getD i "", ds.getD i 0, mius.getD i 0, lambdas.getD i 0⟩

/-- Spec 4.2: `R_k = (thickness_cm_k / 100) / conductivity_k`. -/
def specR (ds lambdas : List α) (k : Nat) : α := (ds.getD k 0 / 100) / lambdas.getD k 0

/-- Spec 4.2: `RT = Rsi + sum(R_k) + Rse` with `Rsi = 0.125`, `Rse = 0.042`. -/
def specRT (ds lambdas : List α) : α :=
  0.125 + (∑ k in Finset.range ds.length, specR ds lambdas k) + 0.042

/-- Spec 4.3: `Rv_k = 50e8 * thickness_cm_k * vapor_permeability_k`. -/
def specRv (ds mius : List α) (k : Nat) : α := 50e8 * ds.getD k 0 * mius.getD k 0

/-- Spec 4.1: `Ps(theta) = 610.5 * e^((a*theta)/(b+theta))`. -/
def specPs (ex : α → α) (a b theta : α) : α := 610.5 * ex ((a * theta) / (b + theta))

/-- Spec 4.3: `Pi = phi_i * Ps(theta_i, interior-formula) / 100`. -/
def specPi (ex : α → α) (theta_i phi_i : α) : α := phi_i * specPs ex 17.269 237.3 theta_i / 100

/-- Spec 4.3: `Pe = phi_e * Ps(theta_e, exterior-formula) / 100`. -/
def specPe (ex : α → α) (theta_e phi_e : α) : α := phi_e * specPs ex 21.875 265.5 theta_e / 100

/-- Spec 4.6: `Rv_barrier = 50e8 * (0.2/1000) * 0.1`. -/
def specRvBarrier : α := 50e8 * (0.2 / 1000) * 0.1

/-- Spec 4.2: the temperature after cumulative resistance `Rsi + R_0 + ... + R_{k-1}`. -/
def specTheta (ds lambdas : List α) (theta_i theta_e : α) (k : Nat) : α :=
  theta_i - ((0.125 + ∑ j in Finset.range k, specR ds lambdas j) / specRT ds lambdas)
    * (theta_i - theta_e)

/-- Spec 4.3: the pressure after cumulative vapour resistance `Rv_0 + ... + Rv_{k-1}`. -/
def specP (ds mius : List α) (Pi Pe : α) (k : Nat) : α :=
  Pi - ((∑ j in Finset.range k, specRv ds mius j) / (∑ j in Finset.range ds.length, specRv ds mius j))
    * (Pi - Pe)

/-- Closed form of the profile `P` (lines 130-140). -/
def closedP (ds mius : List α) (Pi Pe : α) : List α :=
  Pi :: (List.range (ds.length - 1)).map (fun i => specP ds mius Pi Pe (i + 1)) ++ [Pe]

/-- Closed form of the profile `Theta` (line 314). -/
def closedTheta (ds lambdas : List α) (theta_i theta_e : α) : List α :=
  (List.range (ds.length + 1)).map (specTheta ds lambdas theta_i theta_e)

/-- Closed form of the profile `Ps` (lines 172-182). -/
def closedPs (ex : α → α) (ds lambdas : List α) (theta_i theta_e : α) : List α :=
  (closedTheta ds lambdas theta_i theta_e).map (fun t => 610.5 * ex ((17.269 * t) / (237.3 + t)))

/-- Closed form of `isIntersected` after the loop of lines 234-238. -/
def closedFlag (P Ps : List α) : Bool :=
  (List.range Ps.length).any (fun i => decide (Ps.getD i 0 < P.getD i 0))

/-- The sequence `rvsb` of line 246. -/
def closedRvsb (ds mius : List α) : List α :=
  ((List.range ds.length).map (specRv ds mius)).take 1
    ++ specRvBarrier :: ((List.range ds.length).map (specRv ds mius)).drop 1

/-- Closed form of `Pb` inside the condensation branch (lines 250-258). -/
def closedPb (ds mius : List α) (Pi Pe : α) : List α :=
  Pi :: (List.range (ds.length + 1)).map (fun i =>
    Pi - (((closedRvsb ds mius).take (i + 1)).sum
      / ((∑ j in Finset.range ds.length, specRv ds mius j) + specRvBarrier)) * (Pi - Pe))

end SpecDefs

/-!
Proofs.  First the loops are given closed forms (`forLoop_eq`, then one lemma per block of
the handler, composed in `analysis_eq` and `submitHandler_eq`); the statements about the
handler follow.
-/

section Proofs

variable {α : Type} [LinearOrderedField α]

theorem forLoop_eq {σ : Type} (n : Nat) (init : σ) (body : Nat → σ → Except Err σ)
    (F : Nat → σ) (h0 : F 0 = init)
    (hs : ∀ i, i < n → body i (F i) = .ok (F (i + 1))) :
    forLoop n init body = .ok (F n) := by
  induction n with
  | zero => simp [forLoop, h0]
  | succ n ih =>
    have h := ih (fun i hi => hs i (Nat.lt_succ_of_lt hi))
    simp only [forLoop, h]
    exact hs n (Nat.lt_succ_self n)

theorem index_eq {β : Type} (a : List β) (i : Nat) (h : i < a.length) :
    index a i = .ok (a[i]) := by
  simp [index, List.getElem?_eq_getElem h]

theorem sumLoop_eq {α : Type} [AddCommMonoid α] (a : List α) (n : Nat) (h : n ≤ a.length)
    (init : α) : sumLoop a n init = .ok (init + (a.take n).sum) := by
  unfold sumLoop
  refine forLoop_eq n init _ (fun i => init + (a.take i).sum) (by simp) ?_
  intro i hi
  have hi' : i < a.length := lt_of_lt_of_le hi h
  rw [index_eq a i hi']
  show Except.ok (init + (List.take i a).sum + a[i]) = Except.ok (init + (List.take (i + 1) a).sum)
  rw [List.sum_take_succ a i hi', add_assoc]

theorem insert_eq {α : Type} (a : List α) (i : Nat) (v : α) (h : i ≤ a.length) :
    insert a i v = .ok (a.take i ++ v :: a.drop i) := by
  unfold insert
  split_ifs with h1 h2
  · subst h1; simp
  · omega
  · congr 1
    have hlt : i < a.length := by omega
    rw [List.set_eq_take_append_cons_drop]
    have hl : i < (List.take (i + 1) a ++ List.drop i a).length := by simp; omega
    rw [if_pos hl]
    have h1 : List.take i (List.take (i + 1) a ++ List.drop i a) = a.take i := by
      rw [List.take_append_of_le_length (by simp; omega), List.take_take]
      simp
    have h2 : List.drop (i + 1) (List.take (i + 1) a ++ List.drop i a) = a.drop i := by
      rw [List.drop_append_of_le_length (by simp; omega)]
      simp
    rw [h1, h2]

theorem ok_bind {β γ : Type} (x : β) (f : β → Except Err γ) :
    (Except.ok x >>= f) = f x := rfl

theorem pure_eq_ok {β : Type} (x : β) : (pure x : Except Err β) = Except.ok x := rfl

theorem index_map_range {β : Type} (f : Nat → β) (n i : Nat) (h : i < n) :
    index ((List.range n).map f) i = .ok (f i) := by
  rw [index_eq _ _ (by simpa using h)]
  simp

theorem index_getD {β : Type} (a : List β) (i : Nat) (d : β) (h : i < a.length) :
    index a i = .ok (a.getD i d) := by
  rw [index_eq _ _ h]
  simp [List.getD, List.getElem?_eq_getElem h]

theorem sum_take_map_range {β : Type} [AddCommMonoid β] (f : Nat → β) (n k : Nat) (h : k ≤ n) :
    (((List.range n).map f).take k).sum = ∑ j in Finset.range k, f j := by
  rw [← List.map_take, List.take_range, Nat.min_eq_left h]
  clear h
  induction k with
  | zero => simp
  | succ k ih => simp [List.range_succ, Finset.sum_range_succ, ih]

theorem sumLoop_map_range (f : Nat → α) (n k : Nat) (h : k ≤ n) (init : α) :
    sumLoop ((List.range n).map f) k init = .ok (init + ∑ j in Finset.range k, f j) := by
  rw [sumLoop_eq _ _ (by simpa using h), sum_take_map_range f n k h]

/-- Loop that appends one computed element per iteration. -/
theorem forLoop_collect {β : Type} (n : Nat) (init : List β) (body : Nat → List β → Except Err (List β))
    (g : Nat → β) (hs : ∀ i acc, i < n → body i acc = .ok (acc ++ [g i])) :
    forLoop n init body = .ok (init ++ (List.range n).map g) := by
  refine forLoop_eq n init body (fun i => init ++ (List.range i).map g) (by simp) ?_
  intro i hi
  rw [hs i _ hi]
  simp [List.range_succ]

theorem buildEntries_eq (names : List String) (ds mius lambdas : List α)
    (h1 : names.length = ds.length) (h2 : ds.length = mius.length)
    (h3 : mius.length = lambdas.length) :
    buildEntries names ds mius lambdas
      = .ok ⟨(List.range names.length).map (entryAt names ds mius lambdas)⟩ := by
  unfold buildEntries
  rw [if_neg (by simp [h1, h2, h3])]
  rw [forLoop_collect names.length [] _ (entryAt names ds mius lambdas)]
  · rfl
  · intro i acc hi
    rw [index_getD ds i 0 (by omega), index_getD mius i 0 (by omega),
      index_getD lambdas i 0 (by omega), index_getD names i "" hi]
    rfl

theorem vaporProfile_eq (e : Nat → InputEntry α) (n : Nat) (Pi Pe : α) :
    vaporProfile ((List.range n).map e) n Pi Pe
      = .ok ⟨(List.range n).map (fun j => 50 * 10 ^ 8 * (e j).D * (e j).Miu),
          ∑ j in Finset.range n, 50 * 10 ^ 8 * (e j).D * (e j).Miu,
          Pi :: (List.range (n - 1)).map (fun i =>
            Pi - ((∑ j in Finset.range (i + 1), 50 * 10 ^ 8 * (e j).D * (e j).Miu)
              / (∑ j in Finset.range n, 50 * 10 ^ 8 * (e j).D * (e j).Miu)) * (Pi - Pe))
            ++ [Pe]⟩ := by
  unfold vaporProfile
  rw [forLoop_collect n [] _ (fun j => 50 * 10 ^ 8 * (e j).D * (e j).Miu)]
  swap
  · intro i acc hi
    rw [index_map_range e n i hi]
    rfl
  simp only [ok_bind, List.nil_append, List.length_map, List.length_range]
  rw [sumLoop_map_range _ n n (le_refl n)]
  simp only [ok_bind, zero_add]
  rw [forLoop_collect (n - 1) [Pi] _ (fun i =>
            Pi - ((∑ j in Finset.range (i + 1), 50 * 10 ^ 8 * (e j).D * (e j).Miu)
              / (∑ j in Finset.range n, 50 * 10 ^ 8 * (e j).D * (e j).Miu)) * (Pi - Pe))]
  swap
  · intro i acc hi
    rw [sumLoop_map_range _ n (i + 1) (by omega)]
    simp only [ok_bind, zero_add, pure_eq_ok]
  simp only [ok_bind, pure_eq_ok, List.singleton_append, List.cons_append, List.nil_append]

theorem index_snoc {β : Type} (a : List β) (x : β) (i : Nat) (h : a.length = i) :
    index (a ++ [x]) i = .ok x := by
  subst h
  simp [index]

theorem indexInt_pred {β : Type} (a : List β) (n : Nat) (hn : 1 ≤ n) (h : n ≤ a.length) :
    indexInt a ((n : Int) - 1) = .ok (a[n - 1]) := by
  unfold indexInt
  rw [if_neg (by omega)]
  have : ((n : Int) - 1).toNat = n - 1 := by omega
  rw [this, index_eq a (n - 1) (by omega)]

theorem thermalProfile_eq (e : Nat → InputEntry α) (n : Nat) (hn : 1 ≤ n) (theta_i theta_e : α) :
    thermalProfile ((List.range n).map e) n theta_i theta_e
      = .ok ⟨(List.range n).map (fun j => (e j).D / 100 / (e j).Lambda),
          (∑ j in Finset.range n, (e j).D / 100 / (e j).Lambda) + 0.125 + 0.042,
          theta_i - (0.125 / ((∑ j in Finset.range n, (e j).D / 100 / (e j).Lambda) + 0.125 + 0.042))
            * (theta_i - theta_e),
          (List.range n).map (fun i =>
            theta_i - (0.125 + ∑ j in Finset.range (i + 1), (e j).D / 100 / (e j).Lambda)
              / ((∑ j in Finset.range n, (e j).D / 100 / (e j).Lambda) + 0.125 + 0.042)
              * (theta_i - theta_e)),
          theta_i - (0.125 + ∑ j in Finset.range (n - 1 + 1), (e j).D / 100 / (e j).Lambda)
              / ((∑ j in Finset.range n, (e j).D / 100 / (e j).Lambda) + 0.125 + 0.042)
              * (theta_i - theta_e)⟩ := by
  unfold thermalProfile
  rw [forLoop_eq n (([] : List α), (0 : α)) _
    (fun i => ((List.range i).map (fun j => (e j).D / 100 / (e j).Lambda),
      ∑ j in Finset.range i, (e j).D / 100 / (e j).Lambda)) (by simp)]
  swap
  · intro i hi
    rw [index_map_range e n i hi]
    simp only [ok_bind]
    rw [index_snoc _ _ i (by simp)]
    simp only [ok_bind, pure_eq_ok, List.range_succ, List.map_append, List.map_cons, List.map_nil,
      Finset.sum_range_succ]
  simp only [ok_bind]
  rw [forLoop_collect n [] _ (fun i =>
            theta_i - (0.125 + ∑ j in Finset.range (i + 1), (e j).D / 100 / (e j).Lambda)
              / ((∑ j in Finset.range n, (e j).D / 100 / (e j).Lambda) + 0.125 + 0.042)
              * (theta_i - theta_e))]
  swap
  · intro i acc hi
    rw [sumLoop_map_range _ n (i + 1) (by omega)]
    simp only [ok_bind, pure_eq_ok]
  simp only [ok_bind, List.nil_append]
  rw [indexInt_pred _ n hn (by simp)]
  simp only [ok_bind, pure_eq_ok, List.getElem_map, List.getElem_range]

theorem saturationProfile_eq (ex : α → α) (th : Nat → α) (n : Nat) (theta_si theta_se : α) :
    saturationProfile ex n theta_si ((List.range n).map th) theta_se
      = .ok (610.5 * ex ((17.269 * theta_si) / (237.3 + theta_si))
          :: (List.range (n - 1)).map (fun i => 610.5 * ex ((17.269 * th i) / (237.3 + th i)))
          ++ [610.5 * ex ((17.269 * theta_se) / (237.3 + theta_se))]) := by
  unfold saturationProfile
  dsimp only
  rw [forLoop_collect (n - 1) _ _
    (fun i => 610.5 * ex ((17.269 * th i) / (237.3 + th i)))]
  swap
  · intro i acc hi
    rw [index_map_range th n i (by omega)]
    simp only [ok_bind, pure_eq_ok]
  simp only [ok_bind, pure_eq_ok, List.singleton_append, List.cons_append, List.nil_append]

theorem detect_eq (P Ps : List α) (h : Ps.length ≤ P.length) :
    detect P Ps
      = .ok ((List.range Ps.length).any (fun i => decide (Ps.getD i 0 < P.getD i 0))) := by
  unfold detect
  rw [forLoop_eq Ps.length false _
    (fun k => (List.range k).any (fun i => decide (Ps.getD i 0 < P.getD i 0))) (by simp)]
  intro i hi
  rw [index_getD Ps i 0 hi, index_getD P i 0 (by omega)]
  simp only [ok_bind, pure_eq_ok, List.range_succ, List.any_append, List.any_cons, List.any_nil,
    Bool.or_false]
  by_cases hlt : Ps.getD i 0 < P.getD i 0
  · rw [if_pos hlt, decide_eq_true hlt, Bool.or_true]
  · rw [if_neg hlt, decide_eq_false hlt, Bool.or_false]

theorem barrierProfile_eq (rvs : List α) (h : 1 ≤ rvs.length) (Rv Pi Pe : α) :
    barrierProfile rvs Rv Pi Pe
      = .ok (Pi :: (List.range (rvs.length + 1)).map (fun i =>
          Pi - (((rvs.take 1 ++ (50 * 10 ^ 8 * (0.2 / 1000) * 0.1) :: rvs.drop 1).take (i + 1)).sum
            / (Rv + 50 * 10 ^ 8 * (0.2 / 1000) * 0.1)) * (Pi - Pe))) := by
  unfold barrierProfile
  dsimp only
  rw [insert_eq rvs 1 _ h]
  simp only [ok_bind]
  have hlen : (rvs.take 1 ++ (50 * 10 ^ 8 * (0.2 / 1000) * 0.1 : α) :: rvs.drop 1).length
      = rvs.length + 1 := by
    simp
    omega
  rw [hlen]
  rw [forLoop_collect (rvs.length + 1) [] _ (fun i =>
          Pi - (((rvs.take 1 ++ (50 * 10 ^ 8 * (0.2 / 1000) * 0.1) :: rvs.drop 1).take (i + 1)).sum
            / (Rv + 50 * 10 ^ 8 * (0.2 / 1000) * 0.1)) * (Pi - Pe))]
  swap
  · intro i acc hi
    rw [sumLoop_eq _ (i + 1) (by rw [hlen]; omega)]
    simp only [ok_bind, pure_eq_ok, zero_add]
  simp only [ok_bind, List.nil_append]
  rw [insert_eq _ 0 _ (Nat.zero_le _)]
  simp

theorem map_range_succ_split {β : Type} (f : Nat → β) (n : Nat) (hn : 1 ≤ n) :
    f 0 :: (List.range (n - 1)).map (fun i => f (i + 1)) ++ [f n]
      = (List.range (n + 1)).map f := by
  obtain ⟨m, rfl⟩ : ∃ m, n = m + 1 := ⟨n - 1, by omega⟩
  rw [List.range_succ_eq_map (m + 1), List.range_succ]
  simp [Function.comp_def]

theorem closedP_length (ds mius : List α) (Pi Pe : α) (hN : 1 ≤ ds.length) :
    (closedP ds mius Pi Pe).length = ds.length + 1 := by
  simp [closedP]
  omega

theorem closedTheta_length (ds lambdas : List α) (theta_i theta_e : α) :
    (closedTheta ds lambdas theta_i theta_e).length = ds.length + 1 := by
  simp [closedTheta]

theorem closedPs_length (ex : α → α) (ds lambdas : List α) (theta_i theta_e : α) :
    (closedPs ex ds lambdas theta_i theta_e).length = ds.length + 1 := by
  simp [closedPs, closedTheta]

theorem closedPb_length (ds mius : List α) (Pi Pe : α) :
    (closedPb ds mius Pi Pe).length = ds.length + 2 := by
  simp [closedPb]

theorem vapor_closed (names : List String) (ds mius lambdas : List α) (Pi Pe : α) :
    vaporProfile ((List.range ds.length).map (entryAt names ds mius lambdas)) ds.length Pi Pe
      = .ok ⟨(List.range ds.length).map (specRv ds mius),
          ∑ j in Finset.range ds.length, specRv ds mius j, closedP ds mius Pi Pe⟩ := by
  have hRv : ∀ j, 50 * 10 ^ 8 * (entryAt names ds mius lambdas j).D
      * (entryAt names ds mius lambdas j).Miu = specRv ds mius j := by
    intro j
    simp only [specRv, entryAt]
    norm_num
  rw [vaporProfile_eq]
  simp only [hRv]
  rfl

theorem thermal_closed (names : List String) (ds mius lambdas : List α) (theta_i theta_e : α)
    (hN : 1 ≤ ds.length) :
    thermalProfile ((List.range ds.length).map (entryAt names ds mius lambdas)) ds.length
        theta_i theta_e
      = .ok ⟨(List.range ds.length).map (specR ds lambdas), specRT ds lambdas,
          specTheta ds lambdas theta_i theta_e 0,
          (List.range ds.length).map (fun i => specTheta ds lambdas theta_i theta_e (i + 1)),
          specTheta ds lambdas theta_i theta_e ds.length⟩ := by
  have hR : ∀ j, (entryAt names ds mius lambdas j).D / 100
      / (entryAt names ds mius lambdas j).Lambda = specR ds lambdas j := fun _ => rfl
  have hRT : (∑ j in Finset.range ds.length, specR ds lambdas j) + 0.125 + 0.042
      = specRT ds lambdas := by
    unfold specRT
    ring
  rw [thermalProfile_eq _ _ hN]
  simp only [hR, hRT, Nat.sub_add_cancel hN]
  simp only [specTheta, Finset.sum_range_zero, add_zero]

theorem saturation_closed (ex : α → α) (ds lambdas : List α) (theta_i theta_e : α)
    (hN : 1 ≤ ds.length) :
    saturationProfile ex ds.length (specTheta ds lambdas theta_i theta_e 0)
        ((List.range ds.length).map (fun i => specTheta ds lambdas theta_i theta_e (i + 1)))
        (specTheta ds lambdas theta_i theta_e ds.length)
      = .ok (closedPs ex ds lambdas theta_i theta_e) := by
  rw [saturationProfile_eq]
  rw [map_range_succ_split
    (fun k => 610.5 * ex ((17.269 * specTheta ds lambdas theta_i theta_e k)
      / (237.3 + specTheta ds lambdas theta_i theta_e k))) ds.length hN]
  simp [closedPs, closedTheta]

theorem barrier_closed (ds mius : List α) (Pi Pe : α) (hN : 1 ≤ ds.length) :
    barrierProfile ((List.range ds.length).map (specRv ds mius))
        (∑ j in Finset.range ds.length, specRv ds mius j) Pi Pe
      = .ok (closedPb ds mius Pi Pe) := by
  have hB : (50 * 10 ^ 8 * (0.2 / 1000) * 0.1 : α) = specRvBarrier := by
    unfold specRvBarrier
    norm_num
  rw [barrierProfile_eq _ (by simpa using hN)]
  simp only [hB, List.length_map, List.length_range]
  rfl

theorem analysis_eq (ex : α → α) (names : List String) (ds mius lambdas : List α)
    (theta_i theta_e phi_i phi_e : α) (hN : 1 ≤ names.length)
    (h1 : names.length = ds.length) (h2 : ds.length = mius.length)
    (h3 : mius.length = lambdas.length) :
    analysis ex names ds mius lambdas theta_i theta_e phi_i phi_e
      = .ok
        { inputs := ⟨(List.range names.length).map (entryAt names ds mius lambdas)⟩
          Pi := specPi ex theta_i phi_i
          Pe := specPe ex theta_e phi_e
          vapor := ⟨(List.range ds.length).map (specRv ds mius),
            ∑ j in Finset.range ds.length, specRv ds mius j,
            closedP ds mius (specPi ex theta_i phi_i) (specPe ex theta_e phi_e)⟩
          thermal := ⟨(List.range ds.length).map (specR ds lambdas), specRT ds lambdas,
            specTheta ds lambdas theta_i theta_e 0,
            (List.range ds.length).map (fun i => specTheta ds lambdas theta_i theta_e (i + 1)),
            specTheta ds lambdas theta_i theta_e ds.length⟩
          Ps := closedPs ex ds lambdas theta_i theta_e
          isIntersected := closedFlag
            (closedP ds mius (specPi ex theta_i phi_i) (specPe ex theta_e phi_e))
            (closedPs ex ds lambdas theta_i theta_e)
          Pb := if closedFlag
              (closedP ds mius (specPi ex theta_i phi_i) (specPe ex theta_e phi_e))
              (closedPs ex ds lambdas theta_i theta_e) = true
            then closedPb ds mius (specPi ex theta_i phi_i) (specPe ex theta_e phi_e) else [] } := by
  have hN' : 1 ≤ ds.length := h1 ▸ hN
  have hPi : phi_i * (610.5 * ex (17.269 * theta_i / (237.3 + theta_i))) / 100
      = specPi ex theta_i phi_i := rfl
  have hPe : phi_e * (610.5 * ex (21.875 * theta_e / (265.5 + theta_e))) / 100
      = specPe ex theta_e phi_e := rfl
  unfold analysis
  rw [buildEntries_eq names ds mius lambdas h1 h2 h3]
  simp only [ok_bind, hPi, hPe, h1]
  rw [vapor_closed, thermal_closed _ _ _ _ _ _ hN']
  simp only [ok_bind]
  rw [saturation_closed _ _ _ _ _ hN']
  simp only [ok_bind]
  rw [index_eq _ 0 (by rw [closedPs_length]; omega)]
  simp only [ok_bind]
  rw [detect_eq _ _ (by rw [closedP_length _ _ _ _ hN', closedPs_length])]
  simp only [ok_bind]
  rw [barrier_closed _ _ _ _ hN']
  have hf : ((List.range (closedPs ex ds lambdas theta_i theta_e).length).any
      (fun i => decide ((closedPs ex ds lambdas theta_i theta_e).getD i 0
        < (closedP ds mius (specPi ex theta_i phi_i) (specPe ex theta_e phi_e)).getD i 0)))
      = closedFlag (closedP ds mius (specPi ex theta_i phi_i) (specPe ex theta_e phi_e))
          (closedPs ex ds lambdas theta_i theta_e) := rfl
  rw [hf]
  cases closedFlag (closedP ds mius (specPi ex theta_i phi_i) (specPe ex theta_e phi_e))
    (closedPs ex ds lambdas theta_i theta_e) <;> rfl

theorem submitHandler_eq (ex : α → α) (names : List String) (ds mius lambdas : List α)
    (theta_i theta_e phi_i phi_e : α) (hN : 1 ≤ names.length)
    (h1 : names.length = ds.length) (h2 : ds.length = mius.length)
    (h3 : mius.length = lambdas.length) :
    submitHandler ex names ds mius lambdas theta_i theta_e phi_i phi_e
      = .ok
        { P := closedP ds mius (specPi ex theta_i phi_i) (specPe ex theta_e phi_e)
          Theta := closedTheta ds lambdas theta_i theta_e
          Ps := closedPs ex ds lambdas theta_i theta_e
          Pb := if closedFlag
              (closedP ds mius (specPi ex theta_i phi_i) (specPe ex theta_e phi_e))
              (closedPs ex ds lambdas theta_i theta_e) = true
            then closedPb ds mius (specPi ex theta_i phi_i) (specPe ex theta_e phi_e) else []
          Entries := ⟨(List.range names.length).map (entryAt names ds mius lambdas)⟩
          Extra_vals := [0.2, 0.1] } := by
  unfold submitHandler
  rw [analysis_eq ex names ds mius lambdas theta_i theta_e phi_i phi_e hN h1 h2 h3]
  simp only [ok_bind]
  rw [insert_eq _ 0 _ (Nat.zero_le _)]
  simp only [ok_bind, pure_eq_ok, List.take_zero, List.drop_zero, List.nil_append]
  congr 2
  rw [closedTheta, List.range_succ_eq_map]
  simp [Function.comp_def]

theorem closedTheta_getElem? (ds lambdas : List α) (theta_i theta_e : α) (k : Nat)
    (hk : k ≤ ds.length) :
    (closedTheta ds lambdas theta_i theta_e)[k]? = some (specTheta ds lambdas theta_i theta_e k) := by
  unfold closedTheta
  rw [List.getElem?_map, List.getElem?_range (by omega)]
  rfl

theorem closedP_getElem?_zero (ds mius : List α) (Pi Pe : α) :
    (closedP ds mius Pi Pe)[0]? = some Pi := by
  simp [closedP]

theorem closedP_getElem?_last (ds mius : List α) (Pi Pe : α) (hN : 1 ≤ ds.length) :
    (closedP ds mius Pi Pe)[ds.length]? = some Pe := by
  unfold closedP
  obtain ⟨m, hm⟩ : ∃ m, ds.length = m + 1 := ⟨ds.length - 1, by omega⟩
  rw [hm, List.cons_append, List.getElem?_cons_succ, List.getElem?_append_right (by simp)]
  simp

theorem closedP_getElem?_mid (ds mius : List α) (Pi Pe : α) (i : Nat) (h1 : 1 ≤ i)
    (h2 : i ≤ ds.length - 1) :
    (closedP ds mius Pi Pe)[i]? = some (specP ds mius Pi Pe i) := by
  unfold closedP
  obtain ⟨m, rfl⟩ : ∃ m, i = m + 1 := ⟨i - 1, by omega⟩
  rw [List.cons_append, List.getElem?_cons_succ, List.getElem?_append_left (by simp; omega),
    List.getElem?_map, List.getElem?_range (by omega)]
  rfl

/-- C6: for N >= 1 layers the three output profiles Theta, Ps and P all have length N+1. -/
theorem profiles_same_length (ex : α → α) (names : List String) (ds mius lambdas : List α)
    (theta_i theta_e phi_i phi_e : α) (hN : 1 ≤ names.length)
    (h1 : names.length = ds.length) (h2 : ds.length = mius.length)
    (h3 : mius.length = lambdas.length) :
    ∃ r, submitHandler ex names ds mius lambdas theta_i theta_e phi_i phi_e = .ok r
      ∧ r.Theta.length = names.length + 1
      ∧ r.Ps.length = names.length + 1
      ∧ r.P.length = names.length + 1 := by
  refine ⟨_, submitHandler_eq ex names ds mius lambdas theta_i theta_e phi_i phi_e hN h1 h2 h3,
    ?_, ?_, ?_⟩
  · rw [h1]; exact closedTheta_length _ _ _ _
  · rw [h1]; exact closedPs_length _ _ _ _ _
  · rw [h1]; exact closedP_length _ _ _ _ (h1 ▸ hN)

/-- C1: for N >= 1 layers, Theta has N+1 entries, Theta[0] = theta_i - (Rsi/RT)*(theta_i - theta_e),
Theta[k] = theta_i - ((Rsi + R_0 + ... + R_{k-1})/RT)*(theta_i - theta_e) for k in 1..N, with
RT = Rsi + sum R_j + Rse, and Theta[N] is theta_se. -/
theorem theta_profile (ex : α → α) (names : List String) (ds mius lambdas : List α)
    (theta_i theta_e phi_i phi_e : α) (hN : 1 ≤ names.length)
    (h1 : names.length = ds.length) (h2 : ds.length = mius.length)
    (h3 : mius.length = lambdas.length) :
    ∃ l r, analysis ex names ds mius lambdas theta_i theta_e phi_i phi_e = .ok l
      ∧ submitHandler ex names ds mius lambdas theta_i theta_e phi_i phi_e = .ok r
      ∧ l.thermal.RT
          = 0.125 + (∑ j in Finset.range names.length, specR ds lambdas j) + 0.042
      ∧ r.Theta.length = names.length + 1
      ∧ r.Theta[0]? = some (theta_i - (0.125 / l.thermal.RT) * (theta_i - theta_e))
      ∧ (∀ k, 1 ≤ k → k ≤ names.length →
          r.Theta[k]? = some (theta_i
            - ((0.125 + ∑ j in Finset.range k, specR ds lambdas j) / l.thermal.RT)
              * (theta_i - theta_e)))
      ∧ r.Theta[names.length]? = some l.thermal.theta_se := by
  refine ⟨_, _, analysis_eq ex names ds mius lambdas theta_i theta_e phi_i phi_e hN h1 h2 h3,
    submitHandler_eq ex names ds mius lambdas theta_i theta_e phi_i phi_e hN h1 h2 h3,
    ?_, ?_, ?_, ?_, ?_⟩
  · rw [h1]; rfl
  · rw [h1]; exact closedTheta_length _ _ _ _
  · show (closedTheta ds lambdas theta_i theta_e)[0]? = _
    rw [closedTheta_getElem? _ _ _ _ 0 (Nat.zero_le _)]
    simp [specTheta]
  · intro k _ hk
    show (closedTheta ds lambdas theta_i theta_e)[k]? = _
    rw [closedTheta_getElem? _ _ _ _ k (h1 ▸ hk)]
    rfl
  · show (closedTheta ds lambdas theta_i theta_e)[names.length]? = _
    rw [closedTheta_getElem? _ _ _ _ _ (le_of_eq h1), h1]

/-- C2: for N >= 1 layers, P has N+1 entries, P[0] = Pi, P[N] = Pe and
P[i] = Pi - ((Rv_0 + ... + Rv_{i-1})/Rv)*(Pi - Pe) for i in 1..N-1, where Rv is the sum
of all Rv_k, Pi = phi_i * Ps_interior(theta_i) / 100 and Pe = phi_e * Ps_exterior(theta_e) / 100. -/
theorem pressure_profile (ex : α → α) (names : List String) (ds mius lambdas : List α)
    (theta_i theta_e phi_i phi_e : α) (hN : 1 ≤ names.length)
    (h1 : names.length = ds.length) (h2 : ds.length = mius.length)
    (h3 : mius.length = lambdas.length) :
    ∃ r, submitHandler ex names ds mius lambdas theta_i theta_e phi_i phi_e = .ok r
      ∧ r.P.length = names.length + 1
      ∧ r.P[0]? = some (specPi ex theta_i phi_i)
      ∧ r.P[names.length]? = some (specPe ex theta_e phi_e)
      ∧ (∀ i, 1 ≤ i → i ≤ names.length - 1 →
          r.P[i]? = some (specPi ex theta_i phi_i
            - ((∑ j in Finset.range i, specRv ds mius j)
                / (∑ j in Finset.range names.length, specRv ds mius j))
              * (specPi ex theta_i phi_i - specPe ex theta_e phi_e))) := by
  refine ⟨_, submitHandler_eq ex names ds mius lambdas theta_i theta_e phi_i phi_e hN h1 h2 h3,
    ?_, ?_, ?_, ?_⟩
  · rw [h1]; exact closedP_length _ _ _ _ (h1 ▸ hN)
  · exact closedP_getElem?_zero _ _ _ _
  · rw [h1]; exact closedP_getElem?_last _ _ _ _ (h1 ▸ hN)
  · intro i hi1 hi2
    rw [h1] at hi2 ⊢
    exact closedP_getElem?_mid _ _ _ _ i hi1 hi2

/-- C3 (amended): for N >= 1 layers, Ps is obtained from Theta index for index by
610.5*e^(17.269*Theta[i]/(237.3+Theta[i])), the interior coefficients, at every index 0..N. -/
theorem saturation_profile_interior (ex : α → α) (names : List String) (ds mius lambdas : List α)
    (theta_i theta_e phi_i phi_e : α) (hN : 1 ≤ names.length)
    (h1 : names.length = ds.length) (h2 : ds.length = mius.length)
    (h3 : mius.length = lambdas.length) :
    ∃ r, submitHandler ex names ds mius lambdas theta_i theta_e phi_i phi_e = .ok r
      ∧ r.Ps.length = names.length + 1
      ∧ r.Ps = r.Theta.map (specPs ex 17.269 237.3) := by
  refine ⟨_, submitHandler_eq ex names ds mius lambdas theta_i theta_e phi_i phi_e hN h1 h2 h3,
    ?_, ?_⟩
  · rw [h1]; exact closedPs_length _ _ _ _ _
  · rfl

theorem closedFlag_eq_true_iff (P Ps : List α) (h : P.length = Ps.length) :
    closedFlag P Ps = true ↔ ∃ (i : Nat) (p q : α), Ps[i]? = some q ∧ P[i]? = some p ∧ q < p := by
  unfold closedFlag
  rw [List.any_eq_true]
  constructor
  · rintro ⟨i, hi, hlt⟩
    have hi' : i < Ps.length := List.mem_range.mp hi
    have hiP : i < P.length := h ▸ hi'
    refine ⟨i, P[i], Ps[i], List.getElem?_eq_getElem hi', List.getElem?_eq_getElem hiP, ?_⟩
    have := of_decide_eq_true hlt
    simpa [List.getD, List.getElem?_eq_getElem hi', List.getElem?_eq_getElem hiP] using this
  · rintro ⟨i, p, q, hq, hp, hlt⟩
    have hi' : i < Ps.length := by
      by_contra hc
      rw [List.getElem?_eq_none (by omega)] at hq
      exact Option.noConfusion hq
    refine ⟨i, List.mem_range.mpr hi', decide_eq_true ?_⟩
    simpa [List.getD, hq, hp] using hlt

theorem closedFlag_eq_false_of_le (P Ps : List α)
    (h : ∀ i, i < Ps.length → ¬ Ps.getD i 0 < P.getD i 0) : closedFlag P Ps = false := by
  unfold closedFlag
  rw [List.any_eq_false]
  intro i hi
  have := h i (List.mem_range.mp hi)
  simpa using this

/-- C4: for equal-length profiles, `isIntersected` after the detection loop is true iff some
index `i` has `Ps[i] < P[i]`; it is false when `Ps[i] = P[i] + 100` everywhere, and
when `Ps[i] = P[i]` everywhere. -/
theorem detect_iff_exists (P Ps : List α) (h : P.length = Ps.length) :
    (∃ b, detect P Ps = .ok b
        ∧ (b = true ↔ ∃ (i : Nat) (p q : α), Ps[i]? = some q ∧ P[i]? = some p ∧ q < p))
      ∧ detect P (P.map (fun p => p + 100)) = .ok false
      ∧ detect P P = .ok false := by
  refine ⟨⟨_, detect_eq P Ps (le_of_eq h.symm), closedFlag_eq_true_iff P Ps h⟩, ?_, ?_⟩
  · rw [detect_eq P _ (by simp)]
    congr 1
    apply closedFlag_eq_false_of_le
    intro i hi
    have hi' : i < P.length := by simpa using hi
    simp [List.getD, List.getElem?_eq_getElem hi']
  · rw [detect_eq P P (le_refl _)]
    congr 1
    apply closedFlag_eq_false_of_le
    intro i _
    exact lt_irrefl _

theorem closedRvsb_eq_insertIdx (ds mius : List α) (hN : 1 ≤ ds.length) :
    closedRvsb ds mius
      = List.insertIdx 1 specRvBarrier ((List.range ds.length).map (specRv ds mius)) := by
  unfold closedRvsb
  generalize hl : (List.range ds.length).map (specRv ds mius) = l
  have hlen : 1 ≤ l.length := by rw [← hl]; simpa using hN
  cases l with
  | nil => simp at hlen
  | cons a as => rfl

theorem closedPb_getElem?_zero (ds mius : List α) (Pi Pe : α) :
    (closedPb ds mius Pi Pe)[0]? = some Pi := by
  simp [closedPb]

theorem closedPb_getElem?_succ (ds mius : List α) (Pi Pe : α) (k : Nat) (hk : k ≤ ds.length) :
    (closedPb ds mius Pi Pe)[k + 1]?
      = some (Pi - (((closedRvsb ds mius).take (k + 1)).sum
        / ((∑ j in Finset.range ds.length, specRv ds mius j) + specRvBarrier)) * (Pi - Pe)) := by
  unfold closedPb
  rw [List.getElem?_cons_succ, List.getElem?_map, List.getElem?_range (by omega)]
  rfl

/-- C5: for N >= 1 layers, `Pb` is empty when the condensation flag is false; when it is true
`Pb` has length N+2, `Pb[0] = Pi`, and for k in 1..N+1,
`Pb[k] = Pi - ((rv'_0 + ... + rv'_{k-1})/Rv')*(Pi - Pe)` where `rv'` is the per-layer
sequence with `Rv_barrier` inserted at position 1 and `Rv' = Rv + Rv_barrier`. -/
theorem barrier_profile (ex : α → α) (names : List String) (ds mius lambdas : List α)
    (theta_i theta_e phi_i phi_e : α) (hN : 1 ≤ names.length)
    (h1 : names.length = ds.length) (h2 : ds.length = mius.length)
    (h3 : mius.length = lambdas.length) :
    ∃ l r, analysis ex names ds mius lambdas theta_i theta_e phi_i phi_e = .ok l
      ∧ submitHandler ex names ds mius lambdas theta_i theta_e phi_i phi_e = .ok r
      ∧ detect r.P r.Ps = .ok l.isIntersected
      ∧ (l.isIntersected = false → r.Pb = [])
      ∧ (l.isIntersected = true →
          r.Pb.length = names.length + 2
          ∧ r.Pb[0]? = some (specPi ex theta_i phi_i)
          ∧ ∀ k, 1 ≤ k → k ≤ names.length + 1 →
              r.Pb[k]? = some (specPi ex theta_i phi_i
                - (((List.insertIdx 1 specRvBarrier
                      ((List.range names.length).map (specRv ds mius))).take k).sum
                    / ((∑ j in Finset.range names.length, specRv ds mius j) + specRvBarrier))
                  * (specPi ex theta_i phi_i - specPe ex theta_e phi_e))) := by
  have hN' : 1 ≤ ds.length := h1 ▸ hN
  refine ⟨_, _, analysis_eq ex names ds mius lambdas theta_i theta_e phi_i phi_e hN h1 h2 h3,
    submitHandler_eq ex names ds mius lambdas theta_i theta_e phi_i phi_e hN h1 h2 h3,
    ?_, ?_, ?_⟩
  · exact detect_eq _ _ (by rw [closedP_length _ _ _ _ hN', closedPs_length])
  · intro hf
    dsimp only at hf ⊢
    rw [if_neg (by rw [hf]; exact Bool.false_ne_true)]
  · intro hf
    dsimp only at hf ⊢
    rw [if_pos hf, h1]
    refine ⟨closedPb_length _ _ _ _, closedPb_getElem?_zero _ _ _ _, ?_⟩
    intro k hk1 hk2
    obtain ⟨m, rfl⟩ : ∃ m, k = m + 1 := ⟨k - 1, by omega⟩
    rw [closedPb_getElem?_succ _ _ _ _ m (by omega), closedRvsb_eq_insertIdx _ _ hN']

/-- C9 (amended): the handler checks only that the four layer-field lists have equal length
(otherwise it replies 400); it does not check the values: with equal lengths and N >= 1 it
returns profiles of length N+1 for all values, zero and negative ones included. -/
theorem no_value_validation (ex : α → α) (names : List String) (ds mius lambdas : List α)
    (theta_i theta_e phi_i phi_e : α) :
    ((names.length ≠ ds.length ∨ ds.length ≠ mius.length ∨ mius.length ≠ lambdas.length) →
        submitHandler ex names ds mius lambdas theta_i theta_e phi_i phi_e
          = .error .badRequest)
      ∧ ((1 ≤ names.length ∧ names.length = ds.length ∧ ds.length = mius.length
            ∧ mius.length = lambdas.length) →
          ∃ r, submitHandler ex names ds mius lambdas theta_i theta_e phi_i phi_e = .ok r
            ∧ r.Theta.length = names.length + 1 ∧ r.Ps.length = names.length + 1
            ∧ r.P.length = names.length + 1) := by
  constructor
  · intro h
    unfold submitHandler analysis buildEntries
    rw [if_pos h]
    rfl
  · rintro ⟨hN, h1, h2, h3⟩
    refine ⟨_, submitHandler_eq ex names ds mius lambdas theta_i theta_e phi_i phi_e hN h1 h2 h3,
      ?_, ?_, ?_⟩
    · rw [h1]; exact closedTheta_length _ _ _ _
    · rw [h1]; exact closedPs_length _ _ _ _ _
    · rw [h1]; exact closedP_length _ _ _ _ (h1 ▸ hN)

theorem getD_pos (l : List α) (h : ∀ x ∈ l, 0 < x) (j : Nat) (hj : j < l.length) :
    0 < l.getD j 0 := by
  have : l.getD j 0 = l[j] := by simp [List.getD, List.getElem?_eq_getElem hj]
  rw [this]
  exact h _ (List.getElem_mem hj)

theorem specR_pos (ds lambdas : List α) (hd : ∀ d ∈ ds, 0 < d) (hl : ∀ x ∈ lambdas, 0 < x)
    (hlen : ds.length = lambdas.length) (j : Nat) (hj : j < ds.length) :
    0 < specR ds lambdas j := by
  unfold specR
  exact div_pos (div_pos (getD_pos ds hd j hj) (by norm_num))
    (getD_pos lambdas hl j (hlen ▸ hj))

theorem specRv_pos (ds mius : List α) (hd : ∀ d ∈ ds, 0 < d) (hm : ∀ x ∈ mius, 0 < x)
    (hlen : ds.length = mius.length) (j : Nat) (hj : j < ds.length) :
    0 < specRv ds mius j := by
  unfold specRv
  exact mul_pos (mul_pos (by norm_num) (getD_pos ds hd j hj)) (getD_pos mius hm j (hlen ▸ hj))

theorem cum_nonneg (f : Nat → α) (n k : Nat) (hk : k ≤ n) (hf : ∀ j, j < n → 0 < f j) :
    0 ≤ ∑ j in Finset.range k, f j :=
  Finset.sum_nonneg (fun j hj => le_of_lt (hf j (lt_of_lt_of_le (Finset.mem_range.mp hj) hk)))

theorem cum_le (f : Nat → α) (n k : Nat) (hk : k ≤ n) (hf : ∀ j, j < n → 0 < f j) :
    ∑ j in Finset.range k, f j ≤ ∑ j in Finset.range n, f j := by
  apply Finset.sum_le_sum_of_subset_of_nonneg
  · intro j hj
    exact Finset.mem_range.mpr (lt_of_lt_of_le (Finset.mem_range.mp hj) hk)
  · intro j hj _
    exact le_of_lt (hf j (Finset.mem_range.mp hj))

theorem cum_pos (f : Nat → α) (n : Nat) (hn : 1 ≤ n) (hf : ∀ j, j < n → 0 < f j) :
    0 < ∑ j in Finset.range n, f j :=
  Finset.sum_pos (fun j hj => hf j (Finset.mem_range.mp hj))
    (Finset.nonempty_range_iff.mpr (by omega))

theorem specRT_pos (ds lambdas : List α) (hR : ∀ j, j < ds.length → 0 < specR ds lambdas j) :
    0 < specRT ds lambdas := by
  unfold specRT
  have h := cum_nonneg (specR ds lambdas) ds.length ds.length (le_refl _) hR
  have h1 : (0 : α) < 0.125 := by norm_num
  have h2 : (0 : α) < 0.042 := by norm_num
  linarith

theorem specTheta_diff_zero (ds lambdas : List α) (theta_i theta_e : α) :
    theta_i - specTheta ds lambdas theta_i theta_e 0
      = (0.125 / specRT ds lambdas) * (theta_i - theta_e) := by
  simp [specTheta]

theorem specTheta_diff_succ (ds lambdas : List α) (theta_i theta_e : α) (k : Nat) :
    specTheta ds lambdas theta_i theta_e k - specTheta ds lambdas theta_i theta_e (k + 1)
      = (specR ds lambdas k / specRT ds lambdas) * (theta_i - theta_e) := by
  simp only [specTheta, Finset.sum_range_succ]
  ring

theorem specTheta_diff_last (ds lambdas : List α) (theta_i theta_e : α)
    (hRT : specRT ds lambdas ≠ 0) :
    specTheta ds lambdas theta_i theta_e ds.length - theta_e
      = (0.042 / specRT ds lambdas) * (theta_i - theta_e) := by
  unfold specTheta
  field_simp
  unfold specRT
  ring

theorem chain'_cons_map_range_append {β : Type} (R : β → β → Prop) (f : Nat → β) (a b : β)
    (n : Nat)
    (h0 : R a (f 0)) (hs : ∀ k, k < n → R (f k) (f (k + 1))) (hl : R (f n) b) :
    List.Chain' R (a :: (List.range (n + 1)).map f ++ [b]) := by
  rw [List.cons_append, List.chain'_cons']
  constructor
  · intro y hy
    rw [List.range_succ_eq_map] at hy
    simp at hy
    rw [← hy]
    exact h0
  · rw [List.chain'_append]
    refine ⟨?_, List.chain'_singleton b, ?_⟩
    · rw [List.chain'_map, List.chain'_range_succ]
      exact hs
    · intro x hx y hy
      rw [List.range_succ] at hx
      simp at hx hy
      rw [← hx, ← hy]
      exact hl

theorem specRvBarrier_pos : (0 : α) < specRvBarrier := by
  unfold specRvBarrier
  norm_num

theorem sum_take_closedRvsb (ds mius : List α) (k : Nat) (hk1 : 1 ≤ k) (hk : k ≤ ds.length) :
    ((closedRvsb ds mius).take (k + 1)).sum
      = (∑ j in Finset.range k, specRv ds mius j) + specRvBarrier := by
  rw [← sum_take_map_range (specRv ds mius) ds.length k hk]
  unfold closedRvsb
  generalize (List.range ds.length).map (specRv ds mius) = l
  obtain ⟨m, rfl⟩ : ∃ m, k = m + 1 := ⟨k - 1, by omega⟩
  cases l with
  | nil => simp
  | cons a as =>
    simp only [List.take_succ_cons, List.take_zero, List.drop_succ_cons, List.drop_zero,
      List.singleton_append, List.sum_cons]
    ring

theorem specTheta_weight (ds lambdas : List α)
    (hR : ∀ j, j < ds.length → 0 < specR ds lambdas j) (k : Nat) (hk : k ≤ ds.length) :
    0 < (0.125 + ∑ j in Finset.range k, specR ds lambdas j) / specRT ds lambdas
      ∧ (0.125 + ∑ j in Finset.range k, specR ds lambdas j) / specRT ds lambdas < 1 := by
  have hRT : 0 < specRT ds lambdas := specRT_pos ds lambdas hR
  have hc0 : 0 ≤ ∑ j in Finset.range k, specR ds lambdas j :=
    cum_nonneg _ ds.length k hk hR
  have hc1 : ∑ j in Finset.range k, specR ds lambdas j
      ≤ ∑ j in Finset.range ds.length, specR ds lambdas j := cum_le _ ds.length k hk hR
  have h125 : (0 : α) < 0.125 := by norm_num
  refine ⟨div_pos (by linarith) hRT, ?_⟩
  rw [div_lt_one hRT]
  unfold specRT
  have : (0 : α) < 0.042 := by norm_num
  linarith

theorem specTheta_between_desc (ds lambdas : List α) (theta_i theta_e : α)
    (hR : ∀ j, j < ds.length → 0 < specR ds lambdas j) (h : theta_e < theta_i)
    (k : Nat) (hk : k ≤ ds.length) :
    theta_e < specTheta ds lambdas theta_i theta_e k
      ∧ specTheta ds lambdas theta_i theta_e k < theta_i := by
  obtain ⟨hw0, hw1⟩ := specTheta_weight ds lambdas hR k hk
  unfold specTheta
  constructor
  · nlinarith [mul_pos (sub_pos.mpr hw1) (sub_pos.mpr h)]
  · nlinarith [mul_pos hw0 (sub_pos.mpr h)]

theorem specTheta_between_asc (ds lambdas : List α) (theta_i theta_e : α)
    (hR : ∀ j, j < ds.length → 0 < specR ds lambdas j) (h : theta_i < theta_e)
    (k : Nat) (hk : k ≤ ds.length) :
    theta_i < specTheta ds lambdas theta_i theta_e k
      ∧ specTheta ds lambdas theta_i theta_e k < theta_e := by
  obtain ⟨hw0, hw1⟩ := specTheta_weight ds lambdas hR k hk
  unfold specTheta
  constructor
  · nlinarith [mul_pos hw0 (sub_pos.mpr h)]
  · nlinarith [mul_pos (sub_pos.mpr hw1) (sub_pos.mpr h)]

/-- C10: for N >= 1 layers with strictly positive per-layer vapour resistances and Pi >= Pe,
in the condensation branch `Pb[k+1] <= P[k]` for every k in 1..N, and
`Pb[N+1] = P[N] = Pe`. -/
theorem barrier_lowers_pressure (ex : α → α) (names : List String) (ds mius lambdas : List α)
    (theta_i theta_e phi_i phi_e : α) (hN : 1 ≤ names.length)
    (h1 : names.length = ds.length) (h2 : ds.length = mius.length)
    (h3 : mius.length = lambdas.length)
    (hRv : ∀ k, k < names.length → 0 < specRv ds mius k)
    (hP : specPe ex theta_e phi_e ≤ specPi ex theta_i phi_i) :
    ∃ l r, analysis ex names ds mius lambdas theta_i theta_e phi_i phi_e = .ok l
      ∧ submitHandler ex names ds mius lambdas theta_i theta_e phi_i phi_e = .ok r
      ∧ (l.isIntersected = true →
          (∀ k, 1 ≤ k → k ≤ names.length →
            ∃ pb p, r.Pb[k + 1]? = some pb ∧ r.P[k]? = some p ∧ pb ≤ p)
          ∧ r.Pb[names.length + 1]? = some (specPe ex theta_e phi_e)
          ∧ r.P[names.length]? = some (specPe ex theta_e phi_e)) := by
  have hN' : 1 ≤ ds.length := h1 ▸ hN
  rw [h1] at hRv
  have hb : (0 : α) < specRvBarrier := specRvBarrier_pos
  have hRvpos : 0 < ∑ j in Finset.range ds.length, specRv ds mius j := cum_pos _ _ hN' hRv
  have hlast : (closedPb ds mius (specPi ex theta_i phi_i) (specPe ex theta_e phi_e))[ds.length + 1]?
      = some (specPe ex theta_e phi_e) := by
    rw [closedPb_getElem?_succ _ _ _ _ ds.length (le_refl _),
      sum_take_closedRvsb ds mius ds.length hN' (le_refl _), div_self (by linarith)]
    congr 1
    ring
  refine ⟨_, _, analysis_eq ex names ds mius lambdas theta_i theta_e phi_i phi_e hN h1 h2 h3,
    submitHandler_eq ex names ds mius lambdas theta_i theta_e phi_i phi_e hN h1 h2 h3, ?_⟩
  intro hf
  dsimp only at hf ⊢
  rw [if_pos hf, h1]
  refine ⟨?_, hlast, closedP_getElem?_last _ _ _ _ hN'⟩
  intro k hk1 hk
  rcases Nat.lt_or_ge k ds.length with hlt | hge
  · refine ⟨_, _, closedPb_getElem?_succ _ _ _ _ k hk,
      closedP_getElem?_mid _ _ _ _ k hk1 (by omega), ?_⟩
    rw [sum_take_closedRvsb ds mius k hk1 hk]
    unfold specP
    have hS0 : 0 ≤ ∑ j in Finset.range k, specRv ds mius j := cum_nonneg _ ds.length k hk hRv
    have hS1 : ∑ j in Finset.range k, specRv ds mius j
        ≤ ∑ j in Finset.range ds.length, specRv ds mius j := cum_le _ ds.length k hk hRv
    have hfrac : (∑ j in Finset.range k, specRv ds mius j)
          / (∑ j in Finset.range ds.length, specRv ds mius j)
        ≤ ((∑ j in Finset.range k, specRv ds mius j) + specRvBarrier)
          / ((∑ j in Finset.range ds.length, specRv ds mius j) + specRvBarrier) := by
      rw [div_le_div_iff₀ hRvpos (by linarith)]
      nlinarith [mul_le_mul_of_nonneg_right hS1 (le_of_lt hb)]
    have := mul_le_mul_of_nonneg_right hfrac (sub_nonneg.mpr hP)
    linarith
  · have hk' : k = ds.length := le_antisymm hk hge
    subst hk'
    exact ⟨_, _, hlast, closedP_getElem?_last _ _ _ _ hN', le_refl _⟩

/-- C6 witness: the single-layer scenario gives three profiles of length 2. -/
theorem profiles_same_length_witness :
    ∃ r, submitHandler Real.exp ["zid"] [20] [1] [1] 20 (-10) 50 80 = .ok r
      ∧ r.Theta.length = 2 ∧ r.Ps.length = 2 ∧ r.P.length = 2 :=
  profiles_same_length Real.exp ["zid"] [20] [1] [1] 20 (-10) 50 80 (by decide) rfl rfl rfl

/-- C1 witness: one layer d=20, lambda=1, theta_i=20, theta_e=-10 gives RT = 0.367,
Theta[0] = 3590/367 and exactly 2 entries, the last one being theta_se. -/
theorem theta_profile_witness :
    ∃ l r, analysis Real.exp ["zid"] [20] [1] [1] 20 (-10) 50 80 = .ok l
      ∧ submitHandler Real.exp ["zid"] [20] [1] [1] 20 (-10) 50 80 = .ok r
      ∧ l.thermal.RT = 0.367
      ∧ r.Theta.length = 2
      ∧ r.Theta[0]? = some (3590 / 367 : ℝ)
      ∧ r.Theta[1]? = some (-2410 / 367 : ℝ)
      ∧ r.Theta[1]? = some l.thermal.theta_se := by
  obtain ⟨l, r, hl, hr, hRT, hlen, h0, hk, hlast⟩ :=
    theta_profile Real.exp ["zid"] [20] [1] [1] 20 (-10) 50 80 (by decide) rfl rfl rfl
  have hRT' : l.thermal.RT = 0.367 := by
    rw [hRT]
    simp [specR, Finset.sum_range_one]
    norm_num
  refine ⟨l, r, hl, hr, hRT', hlen, ?_, ?_, hlast⟩
  · rw [h0, hRT']
    norm_num
  · rw [hk 1 (le_refl _) (by decide), hRT']
    simp [specR, Finset.sum_range_one]
    norm_num

/-- C2 witness: the single-layer scenario (phi_i=50, phi_e=80, theta_i=20, theta_e=-10)
gives P = [Pi, Pe]. -/
theorem pressure_profile_witness :
    ∃ r, submitHandler Real.exp ["zid"] [20] [1] [1] 20 (-10) 50 80 = .ok r
      ∧ r.P = [specPi Real.exp 20 50, specPe Real.exp (-10) 80] := by
  obtain ⟨r, hr, hlen, h0, hN, _⟩ :=
    pressure_profile Real.exp ["zid"] [20] [1] [1] 20 (-10) 50 80 (by decide) rfl rfl rfl
  refine ⟨r, hr, ?_⟩
  generalize r.P = L at hlen h0 hN
  rcases L with _ | ⟨a, _ | ⟨b, _ | ⟨c, t⟩⟩⟩
  · simp at hlen
  · simp at hlen
  · simp at h0 hN
    rw [h0, hN]
  · simp at hlen

/-- C4 witness: for P = [1, 5] and Ps = [3, 2] the flag is set, by index 1. -/
theorem detect_iff_exists_witness : detect ([1, 5] : List ℝ) [3, 2] = .ok true := by
  obtain ⟨⟨b, hb, hiff⟩, _, _⟩ := detect_iff_exists ([1, 5] : List ℝ) [3, 2] rfl
  rw [hb]
  congr 1
  exact hiff.mpr ⟨1, 5, 2, rfl, rfl, by norm_num⟩

/-- C9 counterexample: a layer of thickness -20 is not rejected; the handler returns
profiles computed from it (RT = -0.033, Theta[0] = 1470/11). -/
theorem invalid_input_counterexample :
    ∃ r, submitHandler Real.exp ["zid"] [-20] [1] [1] 20 (-10) 50 80 = .ok r
      ∧ r.Theta.length = 2 ∧ r.Ps.length = 2 ∧ r.P.length = 2
      ∧ r.Theta[0]? = some (1470 / 11 : ℝ) := by
  refine ⟨_, submitHandler_eq Real.exp ["zid"] [-20] [1] [1] 20 (-10) 50 80 (by decide)
    rfl rfl rfl, rfl, rfl, rfl, ?_⟩
  show (closedTheta _ _ _ _)[0]? = _
  rw [closedTheta_getElem? _ _ _ _ 0 (Nat.zero_le _)]
  simp [specTheta, specRT, specR, Finset.sum_range_one]
  norm_num

/-- C9 (amended) witness: unequal lengths give 400, and a layer of permeability -1 gives
profiles of length 2. -/
theorem no_value_validation_witness :
    submitHandler Real.exp ["zid"] [20, 5] [1] [1] 20 (-10) 50 80 = .error .badRequest
      ∧ ∃ r, submitHandler Real.exp ["zid"] [20] [-1] [1] 20 (-10) 50 80 = .ok r
          ∧ r.Theta.length = 2 ∧ r.Ps.length = 2 ∧ r.P.length = 2 :=
  ⟨(no_value_validation Real.exp ["zid"] [20, 5] [1] [1] 20 (-10) 50 80).1 (Or.inl (by decide)),
   (no_value_validation Real.exp ["zid"] [20] [-1] [1] 20 (-10) 50 80).2
     ⟨by decide, rfl, rfl, rfl⟩⟩

/-- C3 (amended) witness: in the single-layer scenario both entries of Ps use the interior
coefficients. -/
theorem saturation_profile_interior_witness :
    ∃ r, submitHandler Real.exp ["zid"] [20] [1] [1] 20 (-10) 50 80 = .ok r
      ∧ r.Ps.length = 2
      ∧ r.Ps = r.Theta.map (specPs Real.exp 17.269 237.3) :=
  saturation_profile_interior Real.exp ["zid"] [20] [1] [1] 20 (-10) 50 80 (by decide)
    rfl rfl rfl

/-- C3 counterexample: in the single-layer scenario the final entry Ps[1] is the interior
formula at Theta[1] = -2410/367, which differs from the exterior formula at Theta[1]. -/
theorem saturation_exterior_counterexample :
    ∃ r, submitHandler Real.exp ["zid"] [20] [1] [1] 20 (-10) 50 80 = .ok r
      ∧ r.Theta[1]? = some (-2410 / 367 : ℝ)
      ∧ r.Ps[1]? = some (specPs Real.exp 17.269 237.3 (-2410 / 367))
      ∧ specPs Real.exp 17.269 237.3 (-2410 / 367)
          ≠ specPs Real.exp 21.875 265.5 (-2410 / 367) := by
  have ht : specTheta ([20] : List ℝ) [1] 20 (-10) 1 = -2410 / 367 := by
    simp [specTheta, specRT, specR, Finset.sum_range_one]
    norm_num
  have hth : (closedTheta ([20] : List ℝ) [1] 20 (-10))[1]? = some (-2410 / 367 : ℝ) := by
    rw [closedTheta_getElem? _ _ _ _ 1 (by decide), ht]
  refine ⟨_, submitHandler_eq Real.exp ["zid"] [20] [1] [1] 20 (-10) 50 80 (by decide)
    rfl rfl rfl, hth, ?_, ?_⟩
  · show (closedPs Real.exp ([20] : List ℝ) [1] 20 (-10))[1]? = _
    unfold closedPs
    rw [List.getElem?_map, hth]
    rfl
  · unfold specPs
    intro h
    have h' := Real.exp_injective (mul_left_cancel₀ (by norm_num) h)
    norm_num at h'

theorem two_layer_flag :
    closedFlag (closedP ([20, 10] : List ℝ) [1, 2] (specPi Real.exp 20 100)
        (specPe Real.exp (-10) 80))
      (closedPs Real.exp [20, 10] [1, 3] 20 (-10)) = true := by
  rw [closedFlag_eq_true_iff _ _ (by rw [closedP_length _ _ _ _ (by decide), closedPs_length])]
  have ht : specTheta ([20, 10] : List ℝ) [1, 3] 20 (-10) 0 = 12770 / 1201 := by
    simp [specTheta, specRT, specR, Finset.sum_range_succ]
    norm_num
  refine ⟨0, specPi Real.exp 20 100,
    610.5 * Real.exp ((17.269 * (12770 / 1201)) / (237.3 + 12770 / 1201)), ?_, ?_, ?_⟩
  · unfold closedPs
    rw [List.getElem?_map, closedTheta_getElem? _ _ _ _ 0 (Nat.zero_le _), ht]
    rfl
  · exact closedP_getElem?_zero _ _ _ _
  · unfold specPi specPs
    have hlt : Real.exp ((17.269 * (12770 / 1201)) / (237.3 + 12770 / 1201))
        < Real.exp ((17.269 * 20) / (237.3 + 20)) := Real.exp_lt_exp.mpr (by norm_num)
    linarith

/-- C5 witness: two layers with condensation (interior air saturated, phi_i = 100) give Pb of
length 4 with Pb[0] = Pi. -/
theorem barrier_profile_witness :
    ∃ r, submitHandler Real.exp ["a", "b"] [20, 10] [1, 2] [1, 3] 20 (-10) 100 80 = .ok r
      ∧ detect r.P r.Ps = .ok true
      ∧ r.Pb.length = 4
      ∧ r.Pb[0]? = some (specPi Real.exp 20 100) := by
  obtain ⟨l, r, hl, hr, hdet, _, htrue⟩ :=
    barrier_profile Real.exp ["a", "b"] [20, 10] [1, 2] [1, 3] 20 (-10) 100 80 (by decide)
      rfl rfl rfl
  have hflag : l.isIntersected = true := by
    rw [analysis_eq Real.exp ["a", "b"] [20, 10] [1, 2] [1, 3] 20 (-10) 100 80 (by decide)
      rfl rfl rfl] at hl
    injection hl with hl
    rw [← hl]
    exact two_layer_flag
  obtain ⟨hlen, h0, _⟩ := htrue hflag
  rw [hflag] at hdet
  exact ⟨r, hr, hdet, hlen, h0⟩

/-- C10 witness: in the two-layer condensation scenario Pb[2] <= P[1] and
Pb[3] = P[2] = Pe. -/
theorem barrier_lowers_pressure_witness :
    ∃ r, submitHandler Real.exp ["a", "b"] [20, 10] [1, 2] [1, 3] 20 (-10) 100 80 = .ok r
      ∧ (∃ pb p, r.Pb[2]? = some pb ∧ r.P[1]? = some p ∧ pb ≤ p)
      ∧ r.Pb[3]? = some (specPe Real.exp (-10) 80)
      ∧ r.P[2]? = some (specPe Real.exp (-10) 80) := by
  have hRv : ∀ k, k < 2 → 0 < specRv ([20, 10] : List ℝ) [1, 2] k := by
    intro k hk
    interval_cases k <;> simp [specRv] <;> norm_num
  have hP : specPe Real.exp (-10) 80 ≤ specPi Real.exp 20 100 := by
    unfold specPe specPi specPs
    have h1 : Real.exp ((21.875 * (-10)) / (265.5 + (-10))) ≤ 1 :=
      Real.exp_le_one_iff.mpr (by norm_num)
    have h2 : 1 ≤ Real.exp ((17.269 * 20) / (237.3 + 20)) :=
      Real.one_le_exp_iff.mpr (by norm_num)
    linarith
  obtain ⟨l, r, hl, hr, htrue⟩ :=
    barrier_lowers_pressure Real.exp ["a", "b"] [20, 10] [1, 2] [1, 3] 20 (-10) 100 80
      (by decide) rfl rfl rfl hRv hP
  have hflag : l.isIntersected = true := by
    rw [analysis_eq Real.exp ["a", "b"] [20, 10] [1, 2] [1, 3] 20 (-10) 100 80 (by decide)
      rfl rfl rfl] at hl
    injection hl with hl
    rw [← hl]
    exact two_layer_flag
  obtain ⟨hk, hlast, hPlast⟩ := htrue hflag
  exact ⟨r, hr, hk 1 (le_refl _) (by decide), hlast, hPlast⟩

theorem closedTheta_chain_desc (ds lambdas : List α) (theta_i theta_e : α)
    (hR : ∀ j, j < ds.length → 0 < specR ds lambdas j) (hlt : theta_e < theta_i) :
    List.Chain' (fun a b => a > b)
      (theta_i :: closedTheta ds lambdas theta_i theta_e ++ [theta_e]) := by
  have hRT : 0 < specRT ds lambdas := specRT_pos ds lambdas hR
  have hpos : 0 < theta_i - theta_e := sub_pos.mpr hlt
  apply chain'_cons_map_range_append
  · exact (specTheta_between_desc ds lambdas theta_i theta_e hR hlt 0 (Nat.zero_le _)).2
  · intro k hk
    have := specTheta_diff_succ ds lambdas theta_i theta_e k
    have h : 0 < (specR ds lambdas k / specRT ds lambdas) * (theta_i - theta_e) :=
      mul_pos (div_pos (hR k hk) hRT) hpos
    show specTheta ds lambdas theta_i theta_e (k + 1) < specTheta ds lambdas theta_i theta_e k
    linarith
  · exact (specTheta_between_desc ds lambdas theta_i theta_e hR hlt ds.length (le_refl _)).1

theorem closedTheta_chain_asc (ds lambdas : List α) (theta_i theta_e : α)
    (hR : ∀ j, j < ds.length → 0 < specR ds lambdas j) (hlt : theta_i < theta_e) :
    List.Chain' (fun a b => a < b)
      (theta_i :: closedTheta ds lambdas theta_i theta_e ++ [theta_e]) := by
  have hRT : 0 < specRT ds lambdas := specRT_pos ds lambdas hR
  have hneg : theta_i - theta_e < 0 := sub_neg.mpr hlt
  apply chain'_cons_map_range_append
  · exact (specTheta_between_asc ds lambdas theta_i theta_e hR hlt 0 (Nat.zero_le _)).1
  · intro k hk
    have := specTheta_diff_succ ds lambdas theta_i theta_e k
    have h : (specR ds lambdas k / specRT ds lambdas) * (theta_i - theta_e) < 0 :=
      mul_neg_of_pos_of_neg (div_pos (hR k hk) hRT) hneg
    show specTheta ds lambdas theta_i theta_e k < specTheta ds lambdas theta_i theta_e (k + 1)
    linarith
  · exact (specTheta_between_asc ds lambdas theta_i theta_e hR hlt ds.length (le_refl _)).2

/-- C7: for N >= 1 layers with strictly positive thicknesses and conductivities, Theta has
N+1 entries and, when theta_i > theta_e, Theta[0] and Theta[N] lie strictly between theta_e
and theta_i, Theta[k] > Theta[k+1] for every k < N, and
theta_i > Theta[0] > Theta[1] > ... > Theta[N] > theta_e; when theta_i < theta_e the same
holds with every inequality reversed. -/
theorem theta_monotone (ex : α → α) (names : List String) (ds mius lambdas : List α)
    (theta_i theta_e phi_i phi_e : α) (hN : 1 ≤ names.length)
    (h1 : names.length = ds.length) (h2 : ds.length = mius.length)
    (h3 : mius.length = lambdas.length)
    (hd : ∀ d ∈ ds, 0 < d) (hl : ∀ x ∈ lambdas, 0 < x) :
    ∃ r, submitHandler ex names ds mius lambdas theta_i theta_e phi_i phi_e = .ok r
      ∧ r.Theta.length = names.length + 1
      ∧ (theta_e < theta_i →
          (∃ t0 tN, r.Theta[0]? = some t0 ∧ r.Theta[names.length]? = some tN
            ∧ theta_e < t0 ∧ t0 < theta_i ∧ theta_e < tN ∧ tN < theta_i)
          ∧ (∀ k, k < names.length →
              ∃ a b, r.Theta[k]? = some a ∧ r.Theta[k + 1]? = some b ∧ a > b)
          ∧ List.Chain' (fun a b => a > b) (theta_i :: r.Theta ++ [theta_e]))
      ∧ (theta_i < theta_e →
          (∃ t0 tN, r.Theta[0]? = some t0 ∧ r.Theta[names.length]? = some tN
            ∧ theta_i < t0 ∧ t0 < theta_e ∧ theta_i < tN ∧ tN < theta_e)
          ∧ (∀ k, k < names.length →
              ∃ a b, r.Theta[k]? = some a ∧ r.Theta[k + 1]? = some b ∧ a < b)
          ∧ List.Chain' (fun a b => a < b) (theta_i :: r.Theta ++ [theta_e])) := by
  have hR : ∀ j, j < ds.length → 0 < specR ds lambdas j :=
    specR_pos ds lambdas hd hl (h2.trans h3)
  have hRT : 0 < specRT ds lambdas := specRT_pos ds lambdas hR
  refine ⟨_, submitHandler_eq ex names ds mius lambdas theta_i theta_e phi_i phi_e hN h1 h2 h3,
    ?_, ?_, ?_⟩
  · rw [h1]; exact closedTheta_length _ _ _ _
  · intro hlt
    dsimp only
    rw [h1]
    refine ⟨⟨_, _, closedTheta_getElem? _ _ _ _ 0 (Nat.zero_le _),
      closedTheta_getElem? _ _ _ _ ds.length (le_refl _),
      (specTheta_between_desc ds lambdas theta_i theta_e hR hlt 0 (Nat.zero_le _)).1,
      (specTheta_between_desc ds lambdas theta_i theta_e hR hlt 0 (Nat.zero_le _)).2,
      (specTheta_between_desc ds lambdas theta_i theta_e hR hlt ds.length (le_refl _)).1,
      (specTheta_between_desc ds lambdas theta_i theta_e hR hlt ds.length (le_refl _)).2⟩,
      ?_, closedTheta_chain_desc ds lambdas theta_i theta_e hR hlt⟩
    intro k hk
    refine ⟨_, _, closedTheta_getElem? _ _ _ _ k (le_of_lt hk),
      closedTheta_getElem? _ _ _ _ (k + 1) hk, ?_⟩
    have := specTheta_diff_succ ds lambdas theta_i theta_e k
    have h : 0 < (specR ds lambdas k / specRT ds lambdas) * (theta_i - theta_e) :=
      mul_pos (div_pos (hR k hk) hRT) (sub_pos.mpr hlt)
    show specTheta ds lambdas theta_i theta_e (k + 1) < specTheta ds lambdas theta_i theta_e k
    linarith
  · intro hlt
    dsimp only
    rw [h1]
    refine ⟨⟨_, _, closedTheta_getElem? _ _ _ _ 0 (Nat.zero_le _),
      closedTheta_getElem? _ _ _ _ ds.length (le_refl _),
      (specTheta_between_asc ds lambdas theta_i theta_e hR hlt 0 (Nat.zero_le _)).1,
      (specTheta_between_asc ds lambdas theta_i theta_e hR hlt 0 (Nat.zero_le _)).2,
      (specTheta_between_asc ds lambdas theta_i theta_e hR hlt ds.length (le_refl _)).1,
      (specTheta_between_asc ds lambdas theta_i theta_e hR hlt ds.length (le_refl _)).2⟩,
      ?_, closedTheta_chain_asc ds lambdas theta_i theta_e hR hlt⟩
    intro k hk
    refine ⟨_, _, closedTheta_getElem? _ _ _ _ k (le_of_lt hk),
      closedTheta_getElem? _ _ _ _ (k + 1) hk, ?_⟩
    have := specTheta_diff_succ ds lambdas theta_i theta_e k
    have h : (specR ds lambdas k / specRT ds lambdas) * (theta_i - theta_e) < 0 :=
      mul_neg_of_pos_of_neg (div_pos (hR k hk) hRT) (sub_neg.mpr hlt)
    show specTheta ds lambdas theta_i theta_e k < specTheta ds lambdas theta_i theta_e (k + 1)
    linarith

/-- C7 witness: in the single-layer scenario Theta has 2 entries, both strictly between
-10 and 20, and 20 > Theta[0] > Theta[1] > -10. -/
theorem theta_monotone_witness :
    ∃ r, submitHandler Real.exp ["zid"] [20] [1] [1] 20 (-10) 50 80 = .ok r
      ∧ r.Theta.length = 2
      ∧ (∃ t0 tN, r.Theta[0]? = some t0 ∧ r.Theta[1]? = some tN
          ∧ (-10 : ℝ) < t0 ∧ t0 < 20 ∧ (-10 : ℝ) < tN ∧ tN < 20)
      ∧ (∃ a b, r.Theta[0]? = some a ∧ r.Theta[1]? = some b ∧ a > b)
      ∧ List.Chain' (fun a b => a > b) ((20 : ℝ) :: r.Theta ++ [-10]) := by
  obtain ⟨r, hr, hlen, hdown, _⟩ :=
    theta_monotone Real.exp ["zid"] [20] [1] [1] 20 (-10) 50 80 (by decide) rfl rfl rfl
      (by simp) (by simp)
  obtain ⟨hends, hstep, hchain⟩ := hdown (by norm_num)
  exact ⟨r, hr, hlen, hends, hstep 0 (by decide), hchain⟩

theorem thermalProfileWith_eq (dv : α → α → α) (hdv : ∀ a b, b ≠ 0 → dv a b = a / b)
    (e : Nat → InputEntry α) (n : Nat) (hn : 1 ≤ n) (theta_i theta_e : α)
    (hlam : ∀ i, i < n → (e i).Lambda ≠ 0)
    (hRT : (∑ j in Finset.range n, (e j).D / 100 / (e j).Lambda) + 0.125 + 0.042 ≠ 0) :
    thermalProfileWith dv ((List.range n).map e) n theta_i theta_e
      = thermalProfile ((List.range n).map e) n theta_i theta_e := by
  rw [thermalProfile_eq e n hn]
  unfold thermalProfileWith
  rw [forLoop_eq n (([] : List α), (0 : α)) _
    (fun i => ((List.range i).map (fun j => (e j).D / 100 / (e j).Lambda),
      ∑ j in Finset.range i, (e j).D / 100 / (e j).Lambda)) (by simp)]
  swap
  · intro i hi
    rw [index_map_range e n i hi]
    simp only [ok_bind]
    rw [hdv _ 100 (by norm_num), hdv _ _ (hlam i hi), index_snoc _ _ i (by simp)]
    simp only [ok_bind, pure_eq_ok, List.range_succ, List.map_append, List.map_cons, List.map_nil,
      Finset.sum_range_succ]
  simp only [ok_bind]
  rw [forLoop_collect n [] _ (fun i =>
            theta_i - (0.125 + ∑ j in Finset.range (i + 1), (e j).D / 100 / (e j).Lambda)
              / ((∑ j in Finset.range n, (e j).D / 100 / (e j).Lambda) + 0.125 + 0.042)
              * (theta_i - theta_e))]
  swap
  · intro i acc hi
    rw [sumLoop_map_range _ n (i + 1) (by omega)]
    simp only [ok_bind, pure_eq_ok]
    rw [hdv _ _ hRT]
  simp only [ok_bind, List.nil_append]
  rw [indexInt_pred _ n hn (by simp)]
  simp only [ok_bind, pure_eq_ok, List.getElem_map, List.getElem_range]
  rw [hdv _ _ hRT]

theorem barrierProfileWith_eq (dv : α → α → α) (hdv : ∀ a b, b ≠ 0 → dv a b = a / b)
    (rvs : List α) (h : 1 ≤ rvs.length) (Rv Pi Pe : α)
    (hRv : Rv + 50 * 10 ^ 8 * (0.2 / 1000) * 0.1 ≠ 0) :
    barrierProfileWith dv rvs Rv Pi Pe = barrierProfile rvs Rv Pi Pe := by
  rw [barrierProfile_eq rvs h]
  unfold barrierProfileWith
  dsimp only
  rw [hdv _ 1000 (by norm_num), insert_eq rvs 1 _ h]
  simp only [ok_bind]
  have hlen : (rvs.take 1 ++ (50 * 10 ^ 8 * (0.2 / 1000) * 0.1 : α) :: rvs.drop 1).length
      = rvs.length + 1 := by
    simp
    omega
  rw [hlen]
  rw [forLoop_collect (rvs.length + 1) [] _ (fun i =>
          Pi - (((rvs.take 1 ++ (50 * 10 ^ 8 * (0.2 / 1000) * 0.1) :: rvs.drop 1).take (i + 1)).sum
            / (Rv + 50 * 10 ^ 8 * (0.2 / 1000) * 0.1)) * (Pi - Pe))]
  swap
  · intro i acc hi
    rw [sumLoop_eq _ (i + 1) (by rw [hlen]; omega)]
    simp only [ok_bind, pure_eq_ok, zero_add]
    rw [hdv _ _ hRv]
  simp only [ok_bind, List.nil_append]
  rw [insert_eq _ 0 _ (Nat.zero_le _)]
  simp

theorem analysisWith_div (ex : α → α) (names : List String) (ds mius lambdas : List α)
    (theta_i theta_e phi_i phi_e : α) :
    analysisWith (fun a b => a / b) ex names ds mius lambdas theta_i theta_e phi_i phi_e
      = analysis ex names ds mius lambdas theta_i theta_e phi_i phi_e := rfl

theorem bind_eq_ok {β γ : Type} (x : Except Err β) (f : β → Except Err γ) (y : γ)
    (h : (x >>= f) = .ok y) : ∃ a, x = .ok a ∧ f a = .ok y := by
  cases x with
  | error e => exact Except.noConfusion h
  | ok a => exact ⟨a, rfl, h⟩

theorem analysisWith_Pi (dv : α → α → α) (ex : α → α) (names : List String)
    (ds mius lambdas : List α) (theta_i theta_e phi_i phi_e : α) (l : Locals α)
    (h : analysisWith dv ex names ds mius lambdas theta_i theta_e phi_i phi_e = .ok l) :
    l.Pi = dv (phi_i * (610.5 * ex (dv (17.269 * theta_i) (237.3 + theta_i)))) 100 := by
  unfold analysisWith at h
  obtain ⟨inputs, _, h⟩ := bind_eq_ok _ _ _ h
  dsimp only at h
  obtain ⟨vapor, _, h⟩ := bind_eq_ok _ _ _ h
  obtain ⟨thermal, _, h⟩ := bind_eq_ok _ _ _ h
  obtain ⟨Ps, _, h⟩ := bind_eq_ok _ _ _ h
  obtain ⟨_, _, h⟩ := bind_eq_ok _ _ _ h
  obtain ⟨flag, _, h⟩ := bind_eq_ok _ _ _ h
  split at h
  · obtain ⟨Pb, _, h⟩ := bind_eq_ok _ _ _ h
    obtain ⟨_, _, h⟩ := bind_eq_ok _ _ _ h
    obtain ⟨y, _, h⟩ := bind_eq_ok _ _ _ h
    injection h with h
    rw [← h]
  · obtain ⟨y, _, h⟩ := bind_eq_ok _ _ _ h
    injection h with h
    rw [← h]

/-- C8 (amended): for N >= 1 layers with equal-length field lists, strictly positive
thicknesses, conductivities and permeabilities, and every theta_i, theta_e, phi_i, phi_e, the
analysis returns a result (no slice index is out of range), `RT` and `Rv'` are strictly
positive, and no division of the thermal chain (by 100, by a conductivity, by `RT`) or of the
barrier branch (by 1000, by `Rv'`) has a zero denominator: these blocks compute the same
values whatever a division by zero is taken to be. -/
theorem analysis_total (ex : α → α) (names : List String) (ds mius lambdas : List α)
    (theta_i theta_e phi_i phi_e : α) (hN : 1 ≤ names.length)
    (h1 : names.length = ds.length) (h2 : ds.length = mius.length)
    (h3 : mius.length = lambdas.length)
    (hd : ∀ d ∈ ds, 0 < d) (hm : ∀ m ∈ mius, 0 < m) (hl : ∀ x ∈ lambdas, 0 < x) :
    ∃ l r, analysis ex names ds mius lambdas theta_i theta_e phi_i phi_e = .ok l
      ∧ submitHandler ex names ds mius lambdas theta_i theta_e phi_i phi_e = .ok r
      ∧ 0 < l.thermal.RT
      ∧ 0 < l.vapor.Rv + 50 * 10 ^ 8 * (0.2 / 1000) * 0.1
      ∧ ∀ dv : α → α → α, (∀ a b, b ≠ 0 → dv a b = a / b) →
          thermalProfileWith dv l.inputs.Entries names.length theta_i theta_e = .ok l.thermal
          ∧ barrierProfileWith dv l.vapor.rvs l.vapor.Rv l.Pi l.Pe
              = barrierProfile l.vapor.rvs l.vapor.Rv l.Pi l.Pe := by
  have hN' : 1 ≤ ds.length := h1 ▸ hN
  have hR : ∀ j, j < ds.length → 0 < specR ds lambdas j :=
    specR_pos ds lambdas hd hl (h2.trans h3)
  have hRv : ∀ j, j < ds.length → 0 < specRv ds mius j := specRv_pos ds mius hd hm h2
  have hRT : 0 < specRT ds lambdas := specRT_pos ds lambdas hR
  have hRvpos : 0 < ∑ j in Finset.range ds.length, specRv ds mius j := cum_pos _ _ hN' hRv
  have hb : (0 : α) < 50 * 10 ^ 8 * (0.2 / 1000) * 0.1 := by norm_num
  refine ⟨_, _, analysis_eq ex names ds mius lambdas theta_i theta_e phi_i phi_e hN h1 h2 h3,
    submitHandler_eq ex names ds mius lambdas theta_i theta_e phi_i phi_e hN h1 h2 h3,
    hRT, by dsimp only; linarith, ?_⟩
  intro dv hdv
  dsimp only
  rw [h1]
  constructor
  · rw [thermalProfileWith_eq dv hdv (entryAt names ds mius lambdas) ds.length hN' theta_i theta_e
      (fun i hi => ne_of_gt (getD_pos lambdas hl i (by omega)))
      (by
        have hsum : (∑ j in Finset.range ds.length, (entryAt names ds mius lambdas j).D / 100
            / (entryAt names ds mius lambdas j).Lambda)
              = ∑ j in Finset.range ds.length, specR ds lambdas j := rfl
        rw [hsum]
        have := cum_nonneg (specR ds lambdas) ds.length ds.length (le_refl _) hR
        have h125 : (0 : α) < 0.125 := by norm_num
        have h042 : (0 : α) < 0.042 := by norm_num
        apply ne_of_gt
        linarith)]
    exact thermal_closed names ds mius lambdas theta_i theta_e hN'
  · exact barrierProfileWith_eq dv hdv _ (by simpa using hN') _ _ _ (by apply ne_of_gt; linarith)

/-- C8 (amended) witness: the single-layer scenario lies in the domain of `analysis_total`. -/
theorem analysis_total_witness :
    ∃ l r, analysis Real.exp ["zid"] [20] [1] [1] 20 (-10) 50 80 = .ok l
      ∧ submitHandler Real.exp ["zid"] [20] [1] [1] 20 (-10) 50 80 = .ok r
      ∧ 0 < l.thermal.RT
      ∧ 0 < l.vapor.Rv + 50 * 10 ^ 8 * (0.2 / 1000) * 0.1
      ∧ ∀ dv : ℝ → ℝ → ℝ, (∀ a b, b ≠ 0 → dv a b = a / b) →
          thermalProfileWith dv l.inputs.Entries 1 20 (-10) = .ok l.thermal
          ∧ barrierProfileWith dv l.vapor.rvs l.vapor.Rv l.Pi l.Pe
              = barrierProfile l.vapor.rvs l.vapor.Rv l.Pi l.Pe :=
  analysis_total Real.exp ["zid"] [20] [1] [1] 20 (-10) 50 80 (by decide) rfl rfl rfl
    (by simp) (by simp) (by simp)

/-- C8 counterexample: with no layer at all the handler panics on `thetas[len(names)-1]`;
and with theta_i = -237.3 the division of line 112 has denominator zero: the analysis of a
valid single layer changes when a division by zero is given the value 1. -/
theorem analysis_total_counterexample :
    submitHandler Real.exp [] [] [] [] 20 (-10) 50 80 = .error .indexOutOfRange
      ∧ (237.3 : ℝ) + (-237.3) = 0
      ∧ ∃ dv : ℝ → ℝ → ℝ, (∀ a b, b ≠ 0 → dv a b = a / b)
          ∧ analysisWith dv Real.exp ["zid"] [20] [1] [1] (-237.3) (-10) 50 80
              ≠ analysis Real.exp ["zid"] [20] [1] [1] (-237.3) (-10) 50 80 := by
  refine ⟨rfl, by norm_num, fun a b => if b = 0 then 1 else a / b, ?_, ?_⟩
  · intro a b hb
    simp [hb]
  · intro h
    rw [analysis_eq Real.exp ["zid"] [20] [1] [1] (-237.3) (-10) 50 80 (by decide)
      rfl rfl rfl] at h
    have hPi := analysisWith_Pi _ _ _ _ _ _ _ _ _ _ _ h
    dsimp only at hPi
    have h0 : (237.3 : ℝ) + (-237.3) = 0 := by norm_num
    have h100 : (100 : ℝ) ≠ 0 := by norm_num
    simp only [specPi, specPs, h0, if_pos, if_neg h100, div_zero, Real.exp_zero] at hPi
    have h1 : Real.exp 1 = 1 := by
      have h610 : (50 : ℝ) * 610.5 / 100 ≠ 0 := by norm_num
      have : (50 : ℝ) * 610.5 / 100 * 1 = 50 * 610.5 / 100 * Real.exp 1 := by
        linarith
      exact (mul_left_cancel₀ h610 this).symm
    have h2 : (1 : ℝ) < Real.exp 1 := Real.one_lt_exp_iff.mpr (by norm_num)
    linarith

end Proofs

end ProiectFC
